import Mathlib

/-!
# Verification of the OpenAPI-MCP operation translation & execution engine

Shallow embedding of the core of the OpenAPI-MCP repository
(`src/src/server.py`, `src/openapi-mcp.py`, `src/src/openapi-mcp.py`)
in Lean 4, together with theorems settling the specification claims about
name sanitization, server-URL resolution, parameter binding and coercion,
URL joining, OAuth token caching, spec loading, dry-run execution,
pagination, and the kwargs-string parser.

Python values that flow through the engine (JSON-decoded data, caller
arguments) are modelled by the inductive type `PyVal`; Python dicts are
association lists with insertion-order semantics and unique keys.
-/

/-- Model of the Python values handled by the engine: `None`, `bool`,
`int`, `float` (modelled exactly as a rational; the engine never relies on
binary rounding), `str`, `list`, `dict` (insertion-ordered association
list). -/
inductive PyVal where
  | none
  | bool (b : Bool)
  | int (n : Int)
  | float (q : Rat)
  | str (s : String)
  | list (xs : List PyVal)
  | dict (kvs : List (String × PyVal))

abbrev PyDict := List (String × PyVal)

/-- Python `d[k]` / `k in d` lookup on an insertion-ordered dict. -/
def dget (d : PyDict) (k : String) : Option PyVal :=
  (d.find? (fun kv => kv.1 = k)).map (·.2)

/-- Python `d.get(k, default)`. -/
def dgetD (d : PyDict) (k : String) (v : PyVal) : PyVal :=
  (dget d k).getD v

/-- Python `k in d`. -/
def hasKey (d : PyDict) (k : String) : Bool :=
  (dget d k).isSome

/-- Python `d[k] = v`: update in place if the key exists, else append. -/
def dset (d : PyDict) (k : String) (v : PyVal) : PyDict :=
  if hasKey d k then d.map (fun kv => if kv.1 = k then (k, v) else kv)
  else d ++ [(k, v)]

/-- Python `d.update(e)`. -/
def dupdate (d e : PyDict) : PyDict :=
  e.foldl (fun acc kv => dset acc kv.1 kv.2) d

/-- Python `del d[k]` (used for `d.pop(k)` after reading the value). -/
def dremove (d : PyDict) (k : String) : PyDict :=
  d.filter (fun kv => kv.1 ≠ k)

/-- Python truthiness of a value (`bool(v)`). -/
def pyTruthy : PyVal → Bool
  | .none => false
  | .bool b => b
  | .int n => n != 0
  | .float q => q != 0
  | .str s => s != ""
  | .list xs => !xs.isEmpty
  | .dict kvs => !kvs.isEmpty

/-! ## Name sanitization (`src/src/server.py`, `MCPServer.sanitize_name`)

```python
@staticmethod
def sanitize_name(name: str) -> str:
    return re.sub(r"[^a-zA-Z0-9_-]", "_", name)[:64]
```
-/

/-- Membership in the character class `[a-zA-Z0-9_-]`. -/
def isIdentChar (c : Char) : Bool :=
  (('a' ≤ c && c ≤ 'z') || ('A' ≤ c && c ≤ 'Z') ||
   ('0' ≤ c && c ≤ '9') || c = '_' || c = '-')

namespace MCPServer

/-- `MCPServer.sanitize_name`: replace every character outside
`[a-zA-Z0-9_-]` by `_`, then truncate to the first 64 characters. -/
def sanitize_name (name : String) : String :=
  String.mk (((name.data.map (fun c => if isIdentChar c then c else '_'))).take 64)

end MCPServer

/-- The pattern `^[A-Za-z0-9_-]{1,64}$` from the specification, as a
decidable check. -/
def matchesIdPattern (s : String) : Bool :=
  s.data.all isIdentChar && 1 ≤ s.data.length && s.data.length ≤ 64

theorem sanitize_chars_allowed (l : List Char) :
    ((l.map (fun c => if isIdentChar c then c else '_')).take 64).all isIdentChar = true := by
  apply List.all_eq_true.mpr
  intro c hc
  have hc' := List.mem_of_mem_take hc
  rcases List.mem_map.mp hc' with ⟨a, _, rfl⟩
  by_cases h : isIdentChar a = true
  · simp [h]
  · simp [h]; rfl

theorem sanitize_name_data (s : String) :
    (MCPServer.sanitize_name s).data
      = ((s.data.map (fun c => if isIdentChar c then c else '_'))).take 64 := rfl

/-- **C2** — corrected. The sanitizer's output always uses only characters
from `[A-Za-z0-9_-]` and has length `min (length input) 64`; consequently
for every *non-empty* input the output matches `^[A-Za-z0-9_-]{1,64}$`.
(The original claim also asserted this for the empty string, which is
refuted by `sanitize_name_empty_violates_pattern`.) -/
theorem sanitize_name_pattern (s : String) :
    (MCPServer.sanitize_name s).data.all isIdentChar = true ∧
    (MCPServer.sanitize_name s).data.length = min s.data.length 64 ∧
    (s.data.length ≥ 1 → matchesIdPattern (MCPServer.sanitize_name s) = true) := by
  refine ⟨sanitize_chars_allowed s.data, ?_, ?_⟩
  · simp [sanitize_name_data, List.length_take, Nat.min_comm]
  · intro h
    have hall := sanitize_chars_allowed s.data
    have hlen : (MCPServer.sanitize_name s).data.length = min s.data.length 64 := by
      simp [sanitize_name_data, List.length_take, Nat.min_comm]
    simp only [matchesIdPattern, Bool.and_eq_true, decide_eq_true_eq]
    refine ⟨⟨?_, ?_⟩, ?_⟩
    · rw [sanitize_name_data]; exact hall
    · simp only [hlen]; omega
    · simp only [hlen]; omega

/-- Witness for `sanitize_name_pattern` at the concrete input `"ops.list!"`,
discharging the non-emptiness hypothesis. -/
theorem sanitize_name_pattern_witness :
    matchesIdPattern (MCPServer.sanitize_name "ops.list!") = true :=
  (sanitize_name_pattern "ops.list!").2.2 (by decide)

/-- **C2 counterexample**: on the empty input the sanitizer returns the
empty string, whose length is 0, so the output does *not* match
`^[A-Za-z0-9_-]{1,64}$` (which requires length ≥ 1), refuting the claim
as stated ("for every input string (including the empty string) … the
output is always between 1 and 64 characters long"). -/
theorem sanitize_name_empty_violates_pattern :
    MCPServer.sanitize_name "" = "" ∧ matchesIdPattern (MCPServer.sanitize_name "") = false := by
  decide

/-! ## String primitives

Kernel-computable models of the Python string operations the engine uses
(`str.lower`, `str.upper`, `str.startswith`, `str.replace`, `str.split()`,
`str.strip`, `str.rstrip('/')`, `str.lstrip('/')`), implemented on
character lists.  They model Python semantics on ASCII data (the engine's
URLs, identifiers and flags are ASCII). -/

def charLower (c : Char) : Char :=
  if 'A' ≤ c && c ≤ 'Z' then Char.ofNat (c.toNat + 32) else c

def charUpper (c : Char) : Char :=
  if 'a' ≤ c && c ≤ 'z' then Char.ofNat (c.toNat - 32) else c

def strLower (s : String) : String := String.mk (s.data.map charLower)

def strUpper (s : String) : String := String.mk (s.data.map charUpper)

def listStartsWith : List Char → List Char → Bool
  | _, [] => true
  | [], _ :: _ => false
  | a :: as, b :: bs => a = b && listStartsWith as bs

/-- Python `s.startswith(pre)`. -/
def strStartsWith (s pre : String) : Bool := listStartsWith s.data pre.data

/-- Python `str.replace(old, new)` on character lists: left-to-right,
non-overlapping replacement (all our uses have a non-empty `old`).  The
fuel argument only bounds the recursion (a successful match consumes at
least one character, so `length + 1` fuel always suffices). -/
def replaceAux (pat rep : List Char) : Nat → List Char → List Char
  | 0, l => l
  | _, [] => []
  | Nat.succ fuel, c :: cs =>
    if pat ≠ [] && listStartsWith (c :: cs) pat then
      rep ++ replaceAux pat rep fuel (cs.drop (pat.length - 1))
    else
      c :: replaceAux pat rep fuel cs

/-- Python `s.replace(old, new)`. -/
def pyReplace (s pat rep : String) : String :=
  String.mk (replaceAux pat.data rep.data (s.data.length + 1) s.data)

/-- The whitespace characters recognized by Python `str.split()` /
`str.strip()` (restricted to ASCII). -/
def charIsSpace (c : Char) : Bool :=
  c = ' ' || c = '\t' || c = '\n' || c = '\x0d' || c = '\x0b' || c = '\x0c'

/-- Python `s.split()` (split on whitespace runs, dropping empty fields). -/
def pySplitWsAux : List Char → List Char → List String
  | [], [] => []
  | [], w => [String.mk w.reverse]
  | c :: cs, w =>
    if charIsSpace c then
      if w.isEmpty then pySplitWsAux cs [] else String.mk w.reverse :: pySplitWsAux cs []
    else pySplitWsAux cs (c :: w)

def pySplitWs (s : String) : List String := pySplitWsAux s.data []

/-- Python `s.strip()` (ASCII whitespace). -/
def pyStrip (s : String) : String :=
  String.mk (((s.data.dropWhile charIsSpace).reverse.dropWhile charIsSpace).reverse)

/-- Python `s.rstrip("/")`. -/
def rstripSlash (s : String) : String :=
  String.mk ((s.data.reverse.dropWhile (· = '/')).reverse)

/-- Python `s.lstrip("/")`. -/
def lstripSlash (s : String) : String :=
  String.mk (s.data.dropWhile (· = '/'))

/-! ## URL parsing and joining

Models of `urllib.parse.urlparse` and `urllib.parse.urljoin`, restricted
to the URL shapes the engine produces: absolute `http(s)://host/...`
URLs without query, fragment or dot-segments, plus scheme-less strings
(which `urlparse` treats as a bare path). -/

/-- Split a character list at the first occurrence of `"://"`. -/
def splitOnSchemeSep : List Char → Option (List Char × List Char)
  | [] => Option.none
  | c :: rest =>
    if listStartsWith (c :: rest) [':', '/', '/'] then some ([], rest.drop 2)
    else
      match splitOnSchemeSep rest with
      | some (pre, post) => some (c :: pre, post)
      | Option.none => Option.none

structure ParsedUrl where
  scheme : String
  netloc : String
  path : String

/-- Model of `urllib.parse.urlparse` restricted as described above:
`scheme` is the (lowercased) part before the first `"://"`, `netloc`
runs to the next `/`, `path` is the remainder; a string without `"://"`
parses as a bare path. -/
def urlparse (u : String) : ParsedUrl :=
  match splitOnSchemeSep u.data with
  | Option.none => ⟨"", "", u⟩
  | some (pre, post) =>
      ⟨strLower (String.mk pre), String.mk (post.takeWhile (· ≠ '/')),
        String.mk (post.dropWhile (· ≠ '/'))⟩

/-- Python `path.rsplit('/', 1)[0]`: everything before the last `/`
(the whole string when it contains no `/`). -/
def rsplitSlashInit (p : String) : String :=
  if p.data.contains '/' then
    String.mk (((p.data.reverse.dropWhile (· ≠ '/')).drop 1).reverse)
  else p

/-- Model of `urllib.parse.urljoin` under the same restrictions: an empty
reference keeps the base, a reference with its own scheme replaces the
base, `//…` keeps only the base scheme, `/…` keeps scheme and host and
replaces the whole path, and a relative reference is merged onto the
base path's directory. -/
def urljoinModel (base ref : String) : String :=
  let p := urlparse base
  if ref = "" then base
  else if (splitOnSchemeSep ref.data).isSome then ref
  else if strStartsWith ref "//" then p.scheme ++ ":" ++ ref
  else if strStartsWith ref "/" then p.scheme ++ "://" ++ p.netloc ++ ref
  else p.scheme ++ "://" ++ p.netloc ++ rsplitSlashInit p.path ++ "/" ++ ref

/-! ## Server URL resolution and spec loading

`src/src/server.py`, `MCPServer.load_openapi` (lines 154–223), and the
CLI variant `src/openapi-mcp.py`, `load_openapi` (lines 120–163).
Network fetching and parsing are modelled by a `FetchOutcome` input;
logging and the `self.api_category` store are omitted (the title
computation is kept for its failure behaviour).  Where Python's `in` /
indexing on unexpectedly-typed values would raise or perform exotic
membership tests, the model uniformly raises `PyErr.raised`; no theorem
below depends on such inputs. -/

/-- An uncaught Python exception or a `sys.exit` — either way the call
does not return normally. -/
inductive PyErr where
  | raised
deriving DecidableEq

/-- Outcome of fetching and parsing the OpenAPI document: the fetch or
the parse raised, or it produced a decoded value. -/
inductive FetchOutcome where
  | fail
  | ok (spec : PyVal)

/-- The last six lines of the resolution in `load_openapi`
(`src/src/server.py` lines 183–188): absolute-path values get the spec
URL's scheme and host, values not starting with `http://`/`https://` get
`https://`, anything else is verbatim. -/
def normalizeRawUrl (parsed : ParsedUrl) (r : String) : String :=
  if strStartsWith r "/" then parsed.scheme ++ "://" ++ parsed.netloc ++ r
  else if !(strStartsWith r "http://" || strStartsWith r "https://") then "https://" ++ r
  else r

/-- Server-URL resolution of `MCPServer.load_openapi`
(`src/src/server.py` lines 173–188). -/
def serverUrlFrom (servers : Option PyVal) (openapiUrl : String) : Except PyErr String :=
  let parsed := urlparse openapiUrl
  let rawE : Except PyErr PyVal :=
    match servers with
    | some (.list (first :: _)) =>
        match first with
        | .dict d => .ok (dgetD d "url" (.str ""))
        | _ => .error .raised     -- `servers[0].get` on a non-dict raises
    | some (.dict d) => .ok (dgetD d "url" (.str ""))
    | _ => .ok (.str "")
  match rawE with
  | .error e => .error e
  | .ok rawv =>
      if pyTruthy rawv = false then
        .ok (normalizeRawUrl parsed
              (parsed.scheme ++ "://" ++ parsed.netloc ++ rsplitSlashInit parsed.path))
      else
        match rawv with
        | .str s => .ok (normalizeRawUrl parsed s)
        | _ => .error .raised     -- `raw_url.startswith` on a non-str raises

/-- The claim's wording of the final normalization step, before any
amendment: a value "with no scheme" gets the `https://` prefix, "any
other value" (in particular any value that already carries a scheme,
e.g. `ftp://x`) is used verbatim. -/
def normalizeRawUrlClaim (parsed : ParsedUrl) (r : String) : String :=
  if strStartsWith r "/" then parsed.scheme ++ "://" ++ parsed.netloc ++ r
  else if (splitOnSchemeSep r.data).isSome then r
  else "https://" ++ r

/-- The final normalization as the *amended* claim states it: only a value
already starting with `http://` or `https://` is used verbatim. -/
def normalizeRawUrlSpec (parsed : ParsedUrl) (r : String) : String :=
  if strStartsWith r "/" then parsed.scheme ++ "://" ++ parsed.netloc ++ r
  else if strStartsWith r "http://" || strStartsWith r "https://" then r
  else "https://" ++ r

/-- Server-URL resolution as the amended claim C3 states it:
`servers[0].url` (list form) or `servers.url` (object form) when present
as a non-empty string, otherwise scheme+host+directory of the spec's own
fetch URL, the result normalized by `normalizeRawUrlSpec`. -/
def resolveServerUrlSpecAmended (servers : Option PyVal) (openapiUrl : String) : String :=
  let parsed := urlparse openapiUrl
  let fromServers : Option String :=
    match servers with
    | some (.list (first :: _)) =>
        match first with
        | .dict d =>
            match dgetD d "url" (.str "") with
            | .str u => if u = "" then Option.none else some u
            | _ => Option.none
        | _ => Option.none
    | some (.dict d) =>
        match dgetD d "url" (.str "") with
        | .str u => if u = "" then Option.none else some u
        | _ => Option.none
    | _ => Option.none
  match fromServers with
  | some u => normalizeRawUrlSpec parsed u
  | Option.none =>
      normalizeRawUrlSpec parsed
        (parsed.scheme ++ "://" ++ parsed.netloc ++ rsplitSlashInit parsed.path)

/-- The `url` field of a servers entry is absent or a string — the
shapes for which `load_openapi` does not raise. -/
def UrlFieldWF (d : PyDict) : Prop :=
  ∃ s, dgetD d "url" (.str "") = PyVal.str s

def ServersWellFormed : Option PyVal → Prop
  | some (.list (first :: _)) =>
      match first with
      | .dict d => UrlFieldWF d
      | _ => False
  | some (.dict d) => UrlFieldWF d
  | _ => True

/-- HTTP methods recognized by the operation extraction. -/
def allowedMethods : List String := ["get", "post", "put", "delete", "patch", "head", "options"]

/-- Python `a or b` (first truthy operand). -/
def pyOr (a b : PyVal) : PyVal := if pyTruthy a then a else b

/-- `d[k] = v` on an association list with non-`PyVal` values (same
insertion-order semantics as `dset`). -/
def osetAssoc {α : Type} (d : List (String × α)) (k : String) (v : α) : List (String × α) :=
  if (d.find? (fun kv => kv.1 = k)).isSome then
    d.map (fun kv => if kv.1 = k then (k, v) else kv)
  else d ++ [(k, v)]

/-- One entry of `ops_info` as built by `MCPServer.load_openapi`. -/
structure OpInfo where
  summary : PyVal
  parameters : List PyVal
  path : String
  method : String
  responseSchema : Option PyVal
  tags : PyVal

/-- The parameter list of an operation: the declared `parameters` plus the
synthesized `body` parameter when the operation has a `requestBody`
(`src/src/server.py` lines 194–205). -/
def opParameters (op : PyDict) : Except PyErr (List PyVal) := do
  let params ← (match dget op "parameters" with
    | Option.none => Except.ok ([] : List PyVal)
    | some (.list ps) => Except.ok ps
    | some _ => Except.error PyErr.raised)      -- `.append` on a non-list raises
  if hasKey op "requestBody" then do
    let rb ← (match dget op "requestBody" with
      | some (.dict rb) => Except.ok rb
      | _ => Except.error PyErr.raised)
    let bodySchema ← (match dget rb "content" with
      | some (.dict content) =>
          (match dget content "application/json" with
           | some (.dict media) => Except.ok (dgetD media "schema" (.dict []))
           | some _ => Except.error PyErr.raised
           | Option.none => Except.ok (PyVal.dict []))
      | some _ => Except.error PyErr.raised
      | Option.none => Except.ok (PyVal.dict []))
    Except.ok (params ++ [PyVal.dict
      [("name", .str "body"), ("in", .str "body"),
       ("required", dgetD rb "required" (.bool false)),
       ("schema", bodySchema), ("description", .str "Request body")]])
  else
    Except.ok params

/-- The `responseSchema` of an operation (`src/src/server.py` lines 206–210). -/
def opResponseSchema (op : PyDict) : Except PyErr (Option PyVal) :=
  match dget op "responses" with
  | some (.dict rs) =>
      (match dget rs "200" with
       | some (.dict r200) =>
           (match dget r200 "content" with
            | some (.dict content) =>
                (match dget content "application/json" with
                 | some (.dict media) => Except.ok (dget media "schema")
                 | some _ => Except.error PyErr.raised
                 | Option.none => Except.ok Option.none)
            | some _ => Except.error PyErr.raised
            | Option.none => Except.ok Option.none)
       | some _ => Except.error PyErr.raised
       | Option.none => Except.ok Option.none)
  | some _ => Except.error PyErr.raised
  | Option.none => Except.ok Option.none

/-- One iteration of the operation-extraction loop
(`src/src/server.py` lines 194–221): the sanitized operation id and the
`ops_info` entry for one `(path, method)` pair. -/
def extractOpInfo (methodKey path : String) (op : PyDict) : Except PyErr (String × OpInfo) := do
  let params ← opParameters op
  let respSchema ← opResponseSchema op
  let rawOpId ← (let oid := dgetD op "operationId" PyVal.none
    if pyTruthy oid then
      match oid with
      | .str s => Except.ok s
      | _ => Except.error PyErr.raised          -- `re.sub` on a non-str raises
    else
      Except.ok (methodKey ++ "_" ++
        pyReplace (pyReplace (pyReplace path "/" "_") "\x7b" "") "\x7d" ""))
  let sanitizedOpId := MCPServer.sanitize_name rawOpId
  let summary := pyOr (dgetD op "description" PyVal.none)
      (pyOr (dgetD op "summary" PyVal.none) (.str sanitizedOpId))
  Except.ok (sanitizedOpId,
    { summary := summary, parameters := params, path := path,
      method := strUpper methodKey, responseSchema := respSchema,
      tags := dgetD op "tags" (.list []) })

/-- `MCPServer.load_openapi` (`src/src/server.py` lines 154–223): on a
fetch/parse failure or a document that is not a dict with both `paths`
and `info`, logs and returns `({}, "", {})` — it does not stop the
process; otherwise resolves the server URL and extracts the operations
table. -/
def loadOpenapi (openapiUrl : String) (fetch : FetchOutcome) :
    Except PyErr (PyVal × String × List (String × OpInfo)) :=
  match fetch with
  | .fail => Except.ok (.dict [], "", [])
  | .ok spec =>
    match spec with
    | .dict sd =>
      if !(hasKey sd "paths") || !(hasKey sd "info") then
        Except.ok (.dict [], "", [])
      else do
        -- `self.api_category = spec["info"].get("title", "API").split()[0]`
        let _ ← (match dget sd "info" with
          | some (.dict infod) =>
              (match dgetD infod "title" (.str "API") with
               | .str t =>
                   (match pySplitWs t with
                    | [] => Except.error PyErr.raised      -- `[0]` on an empty split
                    | w :: _ => Except.ok w)
               | _ => Except.error PyErr.raised)           -- `.split` on a non-str
          | _ => Except.error PyErr.raised)                -- `.get` on a non-dict
        let serverUrl ← serverUrlFrom (dget sd "servers") openapiUrl
        let paths ← (match dgetD sd "paths" (.dict []) with
          | .dict ps => Except.ok ps
          | _ => Except.error PyErr.raised)                -- `.items()` on a non-dict
        let ops ← paths.foldlM (fun acc kv =>
            match kv.2 with
            | .dict items =>
                items.foldlM (fun acc2 mkv =>
                  if !(allowedMethods.contains (strLower mkv.1)) then
                    Except.ok acc2
                  else
                    match mkv.2 with
                    | .dict opd => do
                        let entry ← extractOpInfo mkv.1 kv.1 opd
                        Except.ok (osetAssoc acc2 entry.1 entry.2)
                    | _ => Except.error PyErr.raised) acc
            | _ => Except.error PyErr.raised) ([] : List (String × OpInfo))
        Except.ok (.dict sd, serverUrl, ops)
    | _ => Except.ok (.dict [], "", [])

/-- One entry of `operations_info` as built by the CLI variant
(`src/openapi-mcp.py` lines 148–162): raw (unsanitized) keys, raw
`parameters` value, no body synthesis. -/
structure OpInfoCli where
  summary : PyVal
  parameters : PyVal
  path : String
  method : String

/-- `load_openapi` of the CLI variant (`src/openapi-mcp.py` lines
120–163).  A fetch or parse failure calls `sys.exit(1)` (modelled as
`.error`); there is no `paths`/`info` presence check; the
`spec["servers"][0]["url"]` lookup catches only `KeyError`/`IndexError`. -/
def loadOpenapiCli (openapiUrl : String) (fetch : FetchOutcome) :
    Except PyErr (PyVal × String × List (String × OpInfoCli)) :=
  match fetch with
  | .fail => Except.error .raised              -- `sys.exit(1)`
  | .ok spec =>
    match spec with
    | .dict sd =>
      let parsed := urlparse openapiUrl
      let fallback := parsed.scheme ++ "://" ++ parsed.netloc ++ rsplitSlashInit parsed.path
      let rawE : Except PyErr String :=
        match dget sd "servers" with
        | Option.none => .ok fallback          -- KeyError "servers": caught
        | some (.list []) => .ok fallback      -- IndexError: caught
        | some (.list (first :: _)) =>
            (match first with
             | .dict d =>
                 (match dget d "url" with
                  | Option.none => .ok fallback        -- KeyError "url": caught
                  | some (.str u) => .ok u
                  | some _ => .error .raised)  -- `.startswith` on a non-str raises
             | _ => .error .raised)            -- `["url"]` on a non-dict raises
        | some (.dict _) => .ok fallback       -- `servers[0]` KeyError on a dict: caught
        | some _ => .error .raised             -- indexing a non-subscriptable value raises
      match rawE with
      | .error e => .error e
      | .ok raw =>
        let serverUrl :=
          if strStartsWith raw "/" then
            urljoinModel (parsed.scheme ++ "://" ++ parsed.netloc) raw
          else if !(strStartsWith raw "http://" || strStartsWith raw "https://") then
            "https://" ++ raw
          else raw
        match dgetD sd "paths" (.dict []) with
        | .dict ps => do
            let ops ← ps.foldlM (fun (acc : List (String × OpInfoCli)) kv =>
              match kv.2 with
              | .dict items =>
                  items.foldlM (fun acc2 mkv =>
                    if !(allowedMethods.contains (strLower mkv.1)) then
                      Except.ok acc2
                    else
                      match mkv.2 with
                      | .dict opd => do
                          let opId ← (let oid := dgetD opd "operationId" PyVal.none
                            if pyTruthy oid then
                              match oid with
                              | .str s => Except.ok s
                              | _ => Except.error PyErr.raised  -- non-str dict key: out of model
                            else
                              Except.ok (mkv.1 ++ "_" ++
                                pyReplace (pyReplace (pyReplace kv.1 "/" "_") "\x7b" "") "\x7d" ""))
                          Except.ok (osetAssoc acc2 opId
                            { summary := dgetD opd "summary" (.str ""),
                              parameters := dgetD opd "parameters" (.list []),
                              path := kv.1, method := strUpper mkv.1 })
                      | _ => Except.error PyErr.raised) acc
              | _ => Except.error PyErr.raised) ([] : List (String × OpInfoCli))
            Except.ok (.dict sd, serverUrl, ops)
        | _ => Except.error PyErr.raised
    | _ => Except.error PyErr.raised           -- `spec["servers"]` on a non-dict raises

theorem normalize_raw_eq (p : ParsedUrl) (r : String) :
    normalizeRawUrl p r = normalizeRawUrlSpec p r := by
  unfold normalizeRawUrl normalizeRawUrlSpec
  cases h1 : strStartsWith r "/" <;>
    cases h2 : (strStartsWith r "http://" || strStartsWith r "https://") <;> simp [h1, h2]

theorem server_url_refines (servers : Option PyVal) (u : String)
    (hwf : ServersWellFormed servers) :
    serverUrlFrom servers u = .ok (resolveServerUrlSpecAmended servers u) := by
  unfold serverUrlFrom resolveServerUrlSpecAmended
  cases servers with
  | none => simp [pyTruthy, normalize_raw_eq]
  | some v =>
    cases v with
    | dict d =>
      obtain ⟨s, hv⟩ := hwf
      by_cases hs : s = ""
      · subst hs; simp [hv, pyTruthy, normalize_raw_eq]
      · simp [hv, pyTruthy, hs, normalize_raw_eq]
    | list xs =>
      cases xs with
      | nil => simp [pyTruthy, normalize_raw_eq]
      | cons first rest =>
        cases first with
        | dict d =>
          obtain ⟨s, hv⟩ := hwf
          by_cases hs : s = ""
          · subst hs; simp [hv, pyTruthy, normalize_raw_eq]
          · simp [hv, pyTruthy, hs, normalize_raw_eq]
        | none => exact hwf.elim
        | bool b => exact hwf.elim
        | int n => exact hwf.elim
        | float q => exact hwf.elim
        | str s => exact hwf.elim
        | list ys => exact hwf.elim
    | none => simp [pyTruthy, normalize_raw_eq]
    | bool b => simp [pyTruthy, normalize_raw_eq]
    | int n => simp [pyTruthy, normalize_raw_eq]
    | float q => simp [pyTruthy, normalize_raw_eq]
    | str s => simp [pyTruthy, normalize_raw_eq]

/-- **C3 counterexample**: the claim states that a servers URL that
already carries a scheme ("any other value") is used verbatim, but for
`servers = [{"url": "ftp://x"}]` the code produces `"https://ftp://x"`
(it only treats `http://`/`https://` prefixes as schemes), not the
verbatim `"ftp://x"` the claim predicts. -/
theorem server_url_scheme_counterexample :
    serverUrlFrom (some (.list [.dict [("url", .str "ftp://x")]])) "https://host/api/openapi.json"
        = .ok "https://ftp://x" ∧
    normalizeRawUrlClaim (urlparse "https://host/api/openapi.json") "ftp://x" = "ftp://x" ∧
    ("https://ftp://x" : String) ≠ "ftp://x" :=
  ⟨rfl, rfl, by decide⟩

/-- **C3** — corrected.  Server-URL resolution follows the claimed order
(`servers[0].url` list form / `servers.url` object form when present as a
non-empty string, else scheme+host+directory of the spec's own URL;
leading-`/` values get the spec URL's scheme and host), with the one
amendment forced by `server_url_scheme_counterexample`: a value is used
verbatim only when it starts with `http://` or `https://`; every other
value without a leading `/` gets the `https://` prefix.  The two concrete
examples of the claim hold. -/
theorem server_url_resolution :
    (∀ servers u, ServersWellFormed servers →
        serverUrlFrom servers u = .ok (resolveServerUrlSpecAmended servers u)) ∧
    (loadOpenapi "https://host/api/openapi.json"
        (.ok (.dict [("paths", .dict []), ("info", .dict [("title", .str "T")]),
                     ("servers", .list [.dict [("url", .str "/v2")]])]))).map (fun t => t.2.1)
      = .ok "https://host/v2" ∧
    (loadOpenapi "https://host/api/v3/openapi.json"
        (.ok (.dict [("paths", .dict []), ("info", .dict [("title", .str "T")])]))).map
          (fun t => t.2.1)
      = .ok "https://host/api/v3" :=
  ⟨server_url_refines, rfl, rfl⟩

/-- Witness for `server_url_resolution`, discharging the well-formedness
hypothesis at the concrete servers value `[{"url": "/v2"}]`. -/
theorem server_url_resolution_witness :
    serverUrlFrom (some (.list [.dict [("url", .str "/v2")]])) "https://host/api/openapi.json"
      = .ok (resolveServerUrlSpecAmended (some (.list [.dict [("url", .str "/v2")]]))
              "https://host/api/openapi.json") :=
  server_url_resolution.1 _ _ ⟨"/v2", rfl⟩

/-- **C8 counterexample**: on a fetch failure, `MCPServer.load_openapi`
returns the normal value `({}, "", {})` — the caller proceeds with an
empty operations table — rather than stopping the process fatally as the
claim states. -/
theorem load_openapi_failure_counterexample :
    loadOpenapi "https://host/api/openapi.json" .fail = .ok (.dict [], "", []) ∧
    loadOpenapi "https://host/api/openapi.json" .fail ≠ .error .raised :=
  ⟨rfl, fun h => Except.noConfusion h⟩

/-- **C8** — corrected.  A fetch/parse failure, or a document that is not
a dict carrying both `paths` and `info`, makes `MCPServer.load_openapi`
return the empty triple `({}, "", {})` (the server then proceeds with no
API operations; nothing retries the load).  Only the CLI variant's
`load_openapi` stops the process (`sys.exit(1)`), and it does so only for
fetch/parse failures — it has no `paths`/`info` check at all. -/
theorem load_openapi_failure_behavior :
    (∀ u, loadOpenapi u .fail = .ok (.dict [], "", [])) ∧
    (∀ u sd, (!(hasKey sd "paths") || !(hasKey sd "info")) = true →
        loadOpenapi u (.ok (.dict sd)) = .ok (.dict [], "", [])) ∧
    (∀ u, loadOpenapiCli u .fail = .error .raised) := by
  refine ⟨fun u => rfl, ?_, fun u => rfl⟩
  intro u sd h
  simp only [loadOpenapi, h]
  rfl

/-- Witness for `load_openapi_failure_behavior`: a document with `info`
but no `paths` is rejected with the empty triple. -/
theorem load_openapi_failure_behavior_witness :
    loadOpenapi "https://host/x.json" (.ok (.dict [("info", .dict [("title", .str "T")])]))
      = .ok (.dict [], "", []) :=
  load_openapi_failure_behavior.2.1 "https://host/x.json" _ (by decide)

/-! ## Python value conversions

Models of `int(v)`, `float(v)`, `str(v)` and `repr(v)` as used by the
engine.  `int`/`float` string parsing follows the Python literal grammar
on ASCII input (optional surrounding whitespace, optional sign, single
underscores between digits); `inf`/`nan` literals are treated as parse
failures (no theorem exercises them).  A failing conversion
(`ValueError`/`TypeError`) is `Option.none`. -/

def isDigit (c : Char) : Bool := '0' ≤ c && c ≤ '9'

/-- Digits with single underscores allowed between digits, continuing
after an initial digit; returns the digit characters. -/
def duAux : List Char → Option (List Char)
  | [] => some []
  | c :: rest =>
    if isDigit c then (duAux rest).map (c :: ·)
    else if c = '_' then
      match rest with
      | d :: rest2 => if isDigit d then (duAux rest2).map (d :: ·) else Option.none
      | [] => Option.none
    else Option.none

/-- A non-empty run of digits with single underscores between digits. -/
def parseUDigits : List Char → Option (List Char)
  | [] => Option.none
  | c :: rest => if isDigit c then (duAux rest).map (c :: ·) else Option.none

def digitsToNat (ds : List Char) : Nat :=
  ds.foldl (fun a c => a * 10 + (c.toNat - 48)) 0

/-- Python `int(s)` on a string. -/
def pyIntOfStr (s : String) : Option Int :=
  let t := (pyStrip s).data
  match t with
  | '+' :: rest => (parseUDigits rest).map (fun ds => (digitsToNat ds : Int))
  | '-' :: rest => (parseUDigits rest).map (fun ds => -(digitsToNat ds : Int))
  | _ => (parseUDigits t).map (fun ds => (digitsToNat ds : Int))

/-- Python `int(v)`: ints unchanged, bools 0/1, floats truncated toward
zero, strings parsed; everything else raises (`Option.none`). -/
def pyInt : PyVal → Option Int
  | .int n => some n
  | .bool b => some (if b then 1 else 0)
  | .float q => some (Int.tdiv q.num (q.den : Int))
  | .str s => pyIntOfStr s
  | _ => Option.none

/-- Split a character list at the first character satisfying `p`
(separator dropped); `Option.none` when absent. -/
def splitAtFirst (p : Char → Bool) : List Char → (List Char × Option (List Char))
  | [] => ([], Option.none)
  | c :: rest =>
    if p c then ([], some rest)
    else
      let (a, b) := splitAtFirst p rest
      (c :: a, b)

/-- A possibly-empty digit group (underscores between digits allowed). -/
def groupDigits : List Char → Option (List Char)
  | [] => some []
  | c :: rest => parseUDigits (c :: rest)

/-- Python `float(s)` on a string (finite decimal literals with optional
exponent; `inf`/`nan` are out of the model). -/
def pyFloatOfStr (s : String) : Option Rat :=
  let t := (pyStrip s).data
  let signAndRest : Bool × List Char :=
    match t with
    | '+' :: r => (false, r)
    | '-' :: r => (true, r)
    | _ => (false, t)
  let (mant, expPart) := splitAtFirst (fun c => c = 'e' || c = 'E') signAndRest.2
  let (ip, fpOpt) := splitAtFirst (fun c => c = '.') mant
  match groupDigits ip with
  | Option.none => Option.none
  | some ipds =>
    let fpdsO : Option (List Char) :=
      match fpOpt with
      | Option.none => some []
      | some fp => groupDigits fp
    match fpdsO with
    | Option.none => Option.none
    | some fpds =>
      if ipds.isEmpty && fpds.isEmpty then Option.none
      else
        let expO : Option Int :=
          match expPart with
          | Option.none => some 0
          | some ecs =>
            match ecs with
            | '+' :: er => (parseUDigits er).map (fun ds => (digitsToNat ds : Int))
            | '-' :: er => (parseUDigits er).map (fun ds => -(digitsToNat ds : Int))
            | _ => (parseUDigits ecs).map (fun ds => (digitsToNat ds : Int))
        match expO with
        | Option.none => Option.none
        | some e =>
          let base : Rat := (digitsToNat (ipds ++ fpds) : Rat) / ((10 : Rat) ^ fpds.length)
          let scaled : Rat :=
            if 0 ≤ e then base * (10 : Rat) ^ e.toNat else base / (10 : Rat) ^ (-e).toNat
          some (if signAndRest.1 then -scaled else scaled)

/-- Python `float(v)`. -/
def pyFloat : PyVal → Option Rat
  | .int n => some (n : Rat)
  | .bool b => some (if b then 1 else 0)
  | .float q => some q
  | .str s => pyFloatOfStr s
  | _ => Option.none

/-- The single-quote character, and `'` as a string. -/
def sqChar : Char := Char.ofNat 39

def sqStr : String := String.mk [sqChar]

/-- Decimal representation of a float value — modelled only for integral
values (`n.0`); the engine never stringifies non-integral floats, and no
theorem depends on the `num/den` fallback used here for them. -/
def pyFloatRepr (q : Rat) : String :=
  if q.den = 1 then toString q.num ++ ".0"
  else toString q.num ++ "/" ++ toString q.den

mutual

/-- Python `repr(v)` — restricted model: strings print single-quoted
without escaping, floats per `pyFloatRepr`. -/
def pyRepr : PyVal → String
  | .none => "None"
  | .bool true => "True"
  | .bool false => "False"
  | .int n => toString n
  | .float q => pyFloatRepr q
  | .str s => sqStr ++ s ++ sqStr
  | .list xs => "[" ++ pyReprItems xs ++ "]"
  | .dict kvs => "\x7b" ++ pyReprKvs kvs ++ "\x7d"

def pyReprItems : List PyVal → String
  | [] => ""
  | [x] => pyRepr x
  | x :: y :: rest => pyRepr x ++ ", " ++ pyReprItems (y :: rest)

def pyReprKvs : List (String × PyVal) → String
  | [] => ""
  | [(k, v)] => sqStr ++ k ++ sqStr ++ ": " ++ pyRepr v
  | (k, v) :: e :: rest => sqStr ++ k ++ sqStr ++ ": " ++ pyRepr v ++ ", " ++ pyReprKvs (e :: rest)

end

/-- Python `str(v)`: identity on strings, `repr` otherwise. -/
def pyStr : PyVal → String
  | .str s => s
  | v => pyRepr v

/-- Python `repr`  of a list of strings, as produced by an f-string
interpolation of a `list[str]` (used by the missing-parameters help
message). -/
def pyReprStrList (xs : List String) : String :=
  pyRepr (.list (xs.map PyVal.str))

/-- The per-parameter type coercion of `MCPServer._prepare_request`
(`src/src/server.py` lines 430–438): `integer` → `int(val)`,
`number` → `float(val)`, `boolean` → membership of `str(val).lower()` in
`{"true","1","yes","y"}`, anything else passes through; a conversion
exception is `.error ()`. -/
def coerceParamValue (pType : String) (val : PyVal) : Except Unit PyVal :=
  if pType = "integer" then
    match pyInt val with
    | some n => .ok (.int n)
    | Option.none => .error ()
  else if pType = "number" then
    match pyFloat val with
    | some q => .ok (.float q)
    | Option.none => .error ()
  else if pType = "boolean" then
    .ok (.bool (["true", "1", "yes", "y"].contains (strLower (pyStr val))))
  else .ok val

/-! ## JSON parsing (`json.loads`)

A fuel-indexed recursive-descent parser for strict JSON, modelling
`json.loads` as used by `parse_kwargs_string` and the response handling.
Restrictions of the model: `NaN`/`Infinity` literals are rejected,
`\uXXXX` escapes are decoded individually (no surrogate-pair joining),
and surrounding whitespace is stripped with Python's whitespace set
(a superset of JSON's) — none of which any theorem depends on. -/

def lbrace : Char := Char.ofNat 123

def rbrace : Char := Char.ofNat 125

def btick : Char := Char.ofNat 96

def jsonWs (c : Char) : Bool := c = ' ' || c = '\t' || c = '\n' || c = '\x0d'

def skipWs (cs : List Char) : List Char := cs.dropWhile jsonWs

def hexDigitVal (c : Char) : Option Nat :=
  if isDigit c then some (c.toNat - 48)
  else if 'a' ≤ c && c ≤ 'f' then some (c.toNat - 87)
  else if 'A' ≤ c && c ≤ 'F' then some (c.toNat - 55)
  else Option.none

/-- The single-character JSON escapes (`\u` is handled separately). -/
def escChar (e : Char) : Option Char :=
  if e = '"' then some '"'
  else if e = '\\' then some '\\'
  else if e = '/' then some '/'
  else if e = 'b' then some '\x08'
  else if e = 'f' then some '\x0c'
  else if e = 'n' then some '\n'
  else if e = 'r' then some '\x0d'
  else if e = 't' then some '\t'
  else Option.none

/-- JSON string body (after the opening quote): returns the decoded
characters and the input after the closing quote. -/
def parseJStringAux : List Char → List Char → Option (List Char × List Char)
  | _, [] => Option.none
  | acc, c :: rest =>
    if c = '"' then some (acc.reverse, rest)
    else if c = '\\' then
      match rest with
      | 'u' :: h1 :: h2 :: h3 :: h4 :: rest3 =>
        (match hexDigitVal h1, hexDigitVal h2, hexDigitVal h3, hexDigitVal h4 with
         | some a, some b, some c2, some d =>
             parseJStringAux (Char.ofNat (4096 * a + 256 * b + 16 * c2 + d) :: acc) rest3
         | _, _, _, _ => Option.none)
      | e :: rest2 =>
        (match escChar e with
         | some d => parseJStringAux (d :: acc) rest2
         | Option.none => Option.none)
      | [] => Option.none
    else if c.toNat < 32 then Option.none
    else parseJStringAux (c :: acc) rest

/-- Build a parsed JSON number from integer digits, fraction digits and
exponent. -/
def mkJNumber (ipds fds : List Char) (e : Int) (isFloat : Bool) (neg : Bool) : PyVal :=
  if isFloat then
    let base : Rat := (digitsToNat (ipds ++ fds) : Rat) / ((10 : Rat) ^ fds.length)
    let scaled : Rat :=
      if 0 ≤ e then base * (10 : Rat) ^ e.toNat else base / (10 : Rat) ^ (-e).toNat
    .float (if neg then -scaled else scaled)
  else
    .int (if neg then -(digitsToNat ipds : Int) else (digitsToNat ipds : Int))

/-- Split an optional leading sign, returning (isNegative, rest). -/
def splitSign : List Char → Bool × List Char
  | '+' :: rr => (false, rr)
  | '-' :: rr => (true, rr)
  | cs => (false, cs)

def parseJNumExp (ipds fds : List Char) (isFloat : Bool) (neg : Bool) :
    List Char → Option (PyVal × List Char)
  | c :: r2 =>
    if c = 'e' || c = 'E' then
      let sr := splitSign r2
      let eds := sr.2.takeWhile isDigit
      if eds.isEmpty then Option.none
      else
        some (mkJNumber ipds fds
                (if sr.1 then -(digitsToNat eds : Int) else (digitsToNat eds : Int))
                true neg,
              sr.2.drop eds.length)
    else some (mkJNumber ipds fds 0 isFloat neg, c :: r2)
  | [] => some (mkJNumber ipds fds 0 isFloat neg, [])

def parseJNumFrac (ipds : List Char) (neg : Bool) : List Char → Option (PyVal × List Char)
  | '.' :: r2 =>
    let fds := r2.takeWhile isDigit
    if fds.isEmpty then Option.none
    else parseJNumExp ipds fds true neg (r2.drop fds.length)
  | rest => parseJNumExp ipds [] false neg rest

/-- JSON only allows a leading minus. -/
def splitNeg : List Char → Bool × List Char
  | '-' :: r => (true, r)
  | cs => (false, cs)

/-- JSON number grammar: `-?(0|[1-9][0-9]*)(\.[0-9]+)?([eE][+-]?[0-9]+)?`;
an integer literal parses to `.int`, anything with a fraction or exponent
to `.float`. -/
def parseJNumber (cs : List Char) : Option (PyVal × List Char) :=
  let sr := splitNeg cs
  match sr.2 with
  | c :: r =>
    if c = '0' then parseJNumFrac [c] sr.1 r
    else if isDigit c then
      let ds := r.takeWhile isDigit
      parseJNumFrac (c :: ds) sr.1 (r.drop ds.length)
    else Option.none
  | [] => Option.none

inductive JMode where
  | value
  | items
  | itemsMust
  | members
  | membersMust

/-- The recursive-descent JSON parser; `items`/`members` accept a closing
bracket or delegate to `itemsMust`/`membersMust`, which require at least
one element (so trailing commas are rejected, as in Python). Object
duplicate keys follow dict-literal semantics (`dset`: first position,
last value). -/
def jparse : Nat → JMode → List Char → Option (PyVal × List Char)
  | 0, _, _ => Option.none
  | Nat.succ fuel, JMode.value, cs =>
    match skipWs cs with
    | [] => Option.none
    | c :: rest =>
      if c = lbrace then
        match jparse fuel JMode.members rest with
        | some (PyVal.dict kvs, r) =>
            some (PyVal.dict (kvs.foldl (fun d kv => dset d kv.1 kv.2) []), r)
        | _ => Option.none
      else if c = '[' then jparse fuel JMode.items rest
      else if c = '"' then
        (parseJStringAux [] rest).map (fun p => (PyVal.str (String.mk p.1), p.2))
      else if listStartsWith (c :: rest) ['t', 'r', 'u', 'e'] then
        some (PyVal.bool true, (c :: rest).drop 4)
      else if listStartsWith (c :: rest) ['f', 'a', 'l', 's', 'e'] then
        some (PyVal.bool false, (c :: rest).drop 5)
      else if listStartsWith (c :: rest) ['n', 'u', 'l', 'l'] then
        some (PyVal.none, (c :: rest).drop 4)
      else parseJNumber (c :: rest)
  | Nat.succ fuel, JMode.items, cs =>
    (match skipWs cs with
     | c :: rest => if c = ']' then some (PyVal.list [], rest) else jparse fuel JMode.itemsMust cs
     | [] => Option.none)
  | Nat.succ fuel, JMode.itemsMust, cs =>
    (match jparse fuel JMode.value cs with
     | some (v, r1) =>
       (match skipWs r1 with
        | ',' :: r2 =>
          (match jparse fuel JMode.itemsMust r2 with
           | some (PyVal.list xs, r3) => some (PyVal.list (v :: xs), r3)
           | _ => Option.none)
        | c :: r2 => if c = ']' then some (PyVal.list [v], r2) else Option.none
        | [] => Option.none)
     | Option.none => Option.none)
  | Nat.succ fuel, JMode.members, cs =>
    (match skipWs cs with
     | c :: rest =>
         if c = rbrace then some (PyVal.dict [], rest) else jparse fuel JMode.membersMust cs
     | [] => Option.none)
  | Nat.succ fuel, JMode.membersMust, cs =>
    (match skipWs cs with
     | c :: rest =>
       if c = '"' then
         match parseJStringAux [] rest with
         | some (k, r1) =>
           (match skipWs r1 with
            | ':' :: r2 =>
              (match jparse fuel JMode.value r2 with
               | some (v, r3) =>
                 (match skipWs r3 with
                  | ',' :: r4 =>
                    (match jparse fuel JMode.membersMust r4 with
                     | some (PyVal.dict kvs, r5) =>
                         some (PyVal.dict ((String.mk k, v) :: kvs), r5)
                     | _ => Option.none)
                  | c2 :: r4 =>
                      if c2 = rbrace then some (PyVal.dict [(String.mk k, v)], r4)
                      else Option.none
                  | [] => Option.none)
               | Option.none => Option.none)
            | _ => Option.none)
         | Option.none => Option.none
       else Option.none
     | [] => Option.none)

/-- Model of `json.loads`: strip surrounding whitespace, parse one value,
require only whitespace after it.  The fuel `3·n + 3` dominates the
parser's recursion depth (each nesting level consumes a bracket within
three calls). -/
def jsonLoads (s : String) : Option PyVal :=
  let t := pyStrip s
  match jparse (3 * t.data.length + 3) JMode.value t.data with
  | some (v, rest) => if (skipWs rest).isEmpty then some v else Option.none
  | Option.none => Option.none

/-! ## `MCPServer.parse_kwargs_string` (`src/src/server.py` lines 277–380)

The prioritized chain: strip whitespace and surrounding backticks and a
leading `?`, then try standard JSON, three unescaping variants, embedded
`\x7b…\x7d` substrings, query-string parsing, and a comma-separated
fallback; return `\x7b\x7d` when everything fails. -/

/-- `re.sub("^`+|`+$", "", s)` for `minLen = 1`, and
`re.sub("^```+|```+$", "", s)` for `minLen = 3`: remove the maximal
leading/trailing backtick runs when they have at least `minLen` characters. -/
def stripTickRuns (minLen : Nat) (s : String) : String :=
  let l := s.data
  let leadLen := (l.takeWhile (· = btick)).length
  let l1 := if minLen ≤ leadLen then l.drop leadLen else l
  let trailLen := (l1.reverse.takeWhile (· = btick)).length
  let l2 := if minLen ≤ trailLen then (l1.reverse.drop trailLen).reverse else l1
  String.mk l2

/-- The candidate substrings found by `re.findall(r"(\x7b.*?\x7d)", s)`:
for each `\x7b`, the shortest closing `\x7d` with no newline in between;
scanning resumes after each match. -/
def findCloseBrace : List Char → Option (List Char × List Char)
  | [] => Option.none
  | c :: rest =>
    if c = rbrace then some ([], rest)
    else if c = '\n' then Option.none
    else (findCloseBrace rest).map (fun p => (c :: p.1, p.2))

def jsonSubstringsAux : Nat → List Char → List String
  | 0, _ => []
  | _, [] => []
  | Nat.succ fuel, c :: rest =>
    if c = lbrace then
      match findCloseBrace rest with
      | some (mid, r) => String.mk (lbrace :: (mid ++ [rbrace])) :: jsonSubstringsAux fuel r
      | Option.none => jsonSubstringsAux fuel rest
    else jsonSubstringsAux fuel rest

def jsonSubstrings (cs : List Char) : List String :=
  jsonSubstringsAux (cs.length + 1) cs

/-- First candidate that `json.loads` decodes to a dict. -/
def firstJsonSubstringDict : List String → Option PyDict
  | [] => Option.none
  | s :: rest =>
    match jsonLoads s with
    | some (.dict kvs) => some kvs
    | _ => firstJsonSubstringDict rest

/-- Split a character list on a separator character (fields may be empty). -/
def splitOnChar (sep : Char) : List Char → List (List Char)
  | [] => [[]]
  | c :: rest =>
    if c = sep then [] :: splitOnChar sep rest
    else
      match splitOnChar sep rest with
      | h :: t => (c :: h) :: t
      | [] => [[c]]

/-- Split at the first `=`; `Option.none` when there is none. -/
def splitFirstEq (cs : List Char) : Option (List Char × List Char) :=
  let (a, b) := splitAtFirst (· = '=') cs
  b.map (fun v => (a, v))

/-- `urllib.parse.unquote_plus` restricted to single-byte (ASCII)
percent-escapes; invalid escapes stay literal. -/
def unquotePlusAux : List Char → List Char
  | [] => []
  | '+' :: rest => ' ' :: unquotePlusAux rest
  | '%' :: h1 :: h2 :: rest2 =>
    (match hexDigitVal h1, hexDigitVal h2 with
     | some a, some b => Char.ofNat (16 * a + b) :: unquotePlusAux rest2
     | _, _ => '%' :: unquotePlusAux (h1 :: h2 :: rest2))
  | c :: rest => c :: unquotePlusAux rest

def unquotePlus (s : String) : String := String.mk (unquotePlusAux s.data)

/-- `dict(urllib.parse.parse_qsl(s))` with default arguments: split on
`&`, drop fields without `=` or with an empty value, unquote names and
values. -/
def parseQsl (s : String) : PyDict :=
  (splitOnChar '&' s.data).foldl
    (fun acc field =>
      match splitFirstEq field with
      | Option.none => acc
      | some (n, v) =>
        if v.isEmpty then acc
        else dset acc (unquotePlus (String.mk n)) (.str (unquotePlus (String.mk v))))
    []

/-- The comma-separated fallback (`src/src/server.py` lines 355–377):
split on commas, strip each pair, split at the first `=`, convert values
to int/float when `float()` succeeds (integral floats become ints). -/
def commaPairs (s : String) : PyDict :=
  (splitOnChar ',' s.data).foldl
    (fun acc pairCs =>
      let p := pyStrip (String.mk pairCs)
      if p.data.isEmpty then acc
      else
        match splitFirstEq p.data with
        | Option.none => acc
        | some (k, v) =>
          let key := pyStrip (String.mk k)
          let vs := pyStrip (String.mk v)
          match pyFloatOfStr vs with
          | some q =>
              if q.den = 1 then dset acc key (.int q.num) else dset acc key (.float q)
          | Option.none => dset acc key (.str vs))
    []

/-- `MCPServer.parse_kwargs_string`: the full prioritized chain.  Always
returns a dict (`[]` when every attempt fails) — the Lean model is total
by construction, mirroring that every fallible step in the Python code is
wrapped in `try`/`except` or cannot raise. -/
def parseKwargsString (s : String) : PyDict :=
  let s1 := pyStrip s
  let s2 := stripTickRuns 1 s1
  let s3 := stripTickRuns 3 s2
  let s4 := if strStartsWith s3 "?" then String.mk (s3.data.drop 1) else s3
  match jsonLoads s4 with
  | some (.dict kvs) => kvs
  | _ =>
    match jsonLoads (pyReplace s4 "\\\"" "\"") with
    | some (.dict kvs) => kvs
    | _ =>
      match jsonLoads (pyReplace s4 "\\\\" "\\") with
      | some (.dict kvs) => kvs
      | _ =>
        match jsonLoads (pyReplace (pyReplace s4 "\\\\" "\\") "\\\"" "\"") with
        | some (.dict kvs) => kvs
        | _ =>
          match firstJsonSubstringDict (jsonSubstrings s4.data) with
          | some kvs => kvs
          | Option.none =>
            let qsl := parseQsl s4
            if !qsl.isEmpty then qsl
            else if s4.data.contains ',' && !(s4.data.contains '&') then
              let result := commaPairs s4
              if !result.isEmpty then result else []
            else []

/-! ## OAuth credential cache (`src/src/server.py` lines 35–47, 121–152)

Timestamps are integers (`time.time()` returns a float; nothing here
depends on sub-second resolution).  The environment configuration and the
token endpoint's behaviour are inputs (`OAuthEnv`). -/

structure OAuthCache where
  token : Option String
  expiry : Int

/-- `OAuthCache.get_token`: the cached token while it is truthy and
`now < expiry`, else `None`. -/
def OAuthCache.get_token (c : OAuthCache) (now : Int) : Option String :=
  match c.token with
  | some t => if t != "" && now < c.expiry then some t else Option.none
  | Option.none => Option.none

/-- `OAuthCache.set_token` (`expires_in` defaults to 3600 at the call
sites that omit it). -/
def OAuthCache.set_token (_c : OAuthCache) (token : Option String) (expiresIn : Int)
    (now : Int) : OAuthCache :=
  { token := token, expiry := now + expiresIn }

/-- What one client-credentials exchange against the configured token URL
would return: `token_data.get("access_token")`,
`token_data.get("expires_in", 3600)`, or a transport/HTTP failure. -/
structure ExchangeSpec where
  accessToken : Option String
  expiresIn : Int
  fails : Bool

/-- OAuth environment: `some` iff `OAUTH_CLIENT_ID`, `OAUTH_CLIENT_SECRET`
and `OAUTH_TOKEN_URL` are all set. -/
structure OAuthEnv where
  creds : Option ExchangeSpec

/-- `MCPServer.get_oauth_access_token`: cached token if valid; otherwise,
with credentials configured, one exchange (a failure is `sys.exit(1)`,
modelled as `.error`); without credentials, `None`.  Returns the token,
the updated cache, and the number of exchanges performed (0 or 1). -/
def getOauthAccessToken (env : OAuthEnv) (cache : OAuthCache) (now : Int) :
    Except PyErr (Option String × OAuthCache × Nat) :=
  match cache.get_token now with
  | some t => .ok (some t, cache, 0)
  | Option.none =>
    match env.creds with
    | some ex =>
        if ex.fails then .error .raised
        else .ok (ex.accessToken, cache.set_token ex.accessToken ex.expiresIn now, 1)
    | Option.none => .ok (Option.none, cache, 0)

/-! ## Parameter binding and request preparation
(`src/src/server.py`, `MCPServer._prepare_request`, lines 382–457, and
`generate_tool_function`/`tool_func`, lines 459–506)

Exception message texts interpolated from Python exception objects are
abbreviated in the model (only the envelope shape and the `code` field
matter to the claims). -/

def mkError (reqId : PyVal) (code : Int) (msg : String) : PyVal :=
  .dict [("jsonrpc", .str "2.0"), ("id", reqId),
         ("error", .dict [("code", .int code), ("message", .str msg)])]

def mkResult (reqId : PyVal) (result : PyVal) : PyVal :=
  .dict [("jsonrpc", .str "2.0"), ("id", reqId), ("result", result)]

/-- Lines 392–413: if `kwargs` holds a string under the key `"kwargs"`,
strip backticks, parse it with `parse_kwargs_string` and merge; an empty
parse is a `-32602` error response; a dict value is merged directly. -/
def mergeKwargsKey (reqId : PyVal) (kwargs : PyDict) : Except PyVal PyDict :=
  match dget kwargs "kwargs" with
  | some (.str raw) =>
      let kwargs1 := dremove kwargs "kwargs"
      let raw1 := stripTickRuns 1 raw
      let parsed := parseKwargsString raw1
      if parsed.isEmpty then
        .error (mkError reqId (-32602)
          ("Could not parse kwargs string: " ++ sqStr ++ raw1 ++ sqStr ++ ". Please check format."))
      else .ok (dupdate kwargs1 parsed)
  | some (.dict dkv) => .ok (dupdate (dremove kwargs "kwargs") dkv)
  | some _ => .ok kwargs
  | Option.none => .ok kwargs

/-- Line 414: `[p["name"] for p in parameters if p.get("required", False)]`
(the name values themselves; a missing `"name"` key or a non-dict
parameter raises). -/
def requiredParamNames (params : List PyVal) : Except PyErr (List PyVal) :=
  params.foldlM
    (fun (acc : List PyVal) p =>
      match p with
      | .dict pd =>
        if pyTruthy (dgetD pd "required" (.bool false)) then
          match dget pd "name" with
          | some v => .ok (acc ++ [v])
          | Option.none => .error .raised
        else .ok acc
      | _ => .error .raised)
    []

/-- Line 417: `[name for name in expected if name not in kwargs]`
(`**kwargs` keys are strings, so a non-string declared name is never
present). -/
def missingOf (kwargs : PyDict) (expected : List PyVal) : List PyVal :=
  expected.filter
    (fun v =>
      match v with
      | .str n => !(hasKey kwargs n)
      | _ => true)

/-- Lines 426–452: the per-parameter loop — coercion by declared
`schema.type` (exceptions caught: `.error ()` from `coerceForParam`) and
location routing. -/
def coerceForParam (pd : PyDict) (val : PyVal) : Except Unit PyVal :=
  match dgetD pd "schema" (.dict []) with
  | .dict sd =>
      (match dgetD sd "type" (.str "string") with
       | .str t => coerceParamValue t val
       | _ => .ok val)
  | _ => .error ()

def bindParamsAux (reqId : PyVal) (kwargs : PyDict) :
    List PyVal → String → PyDict → PyDict → Option PyVal →
    Except PyErr (Except PyVal (String × PyDict × PyDict × Option PyVal))
  | [], path, ps, hs, body => .ok (.ok (path, ps, hs, body))
  | p :: rest, path, ps, hs, body =>
    match p with
    | .dict pd =>
      (match dget pd "name" with
       | some (.str name) =>
         if hasKey kwargs name then
           let val := (dget kwargs name).getD PyVal.none
           (match coerceForParam pd val with
            | .error _ =>
                .ok (.error (mkError reqId (-32602)
                  ("Parameter " ++ sqStr ++ name ++ sqStr ++ " conversion error")))
            | .ok v =>
              (match dgetD pd "in" (.str "query") with
               | .str l =>
                 if l = "path" then
                   bindParamsAux reqId kwargs rest
                     (pyReplace path ("\x7b" ++ name ++ "\x7d") (pyStr v)) ps hs body
                 else if l = "query" then
                   bindParamsAux reqId kwargs rest path (dset ps name v) hs body
                 else if l = "header" then
                   bindParamsAux reqId kwargs rest path ps (dset hs name v) body
                 else if l = "body" then
                   bindParamsAux reqId kwargs rest path ps hs (some v)
                 else bindParamsAux reqId kwargs rest path ps hs body
               | _ => bindParamsAux reqId kwargs rest path ps hs body))
         else bindParamsAux reqId kwargs rest path ps hs body
       | some _ => bindParamsAux reqId kwargs rest path ps hs body
       | Option.none => .error .raised)
    | _ => .error .raised

/-- `MCPServer._prepare_request`.  Returns either an immediate JSON-RPC
response (help or error envelope) or the prepared request tuple
`(full_url, params, headers, body, dry_run)`, together with the updated
OAuth cache and the number of token exchanges performed.  The OAuth call
happens only after the missing-parameter check and the binding loop have
passed (lines 453–456). -/
def prepareRequest (env : OAuthEnv) (cache : OAuthCache) (now : Int) (reqId : PyVal)
    (kwargs : PyDict) (parameters : List PyVal) (path : String) (serverUrl : String) :
    Except PyErr
      (Except PyVal (String × PyDict × PyDict × Option PyVal × PyVal) × OAuthCache × Nat) :=
  match mergeKwargsKey reqId kwargs with
  | .error resp => .ok (.error resp, cache, 0)
  | .ok kwargs1 =>
    match requiredParamNames parameters with
    | .error e => .error e
    | .ok expected =>
      let missing := missingOf kwargs1 expected
      if !missing.isEmpty then
        .ok (.error (mkResult reqId (.dict
              [("help", .str ("Missing parameters: " ++ pyRepr (.list missing)))])),
             cache, 0)
      else
        let dryRun := dgetD kwargs1 "dry_run" (.bool false)
        let kwargs2 := dremove kwargs1 "dry_run"
        match bindParamsAux reqId kwargs2 parameters path [] [] Option.none with
        | .error e => .error e
        | .ok (.error resp) => .ok (.error resp, cache, 0)
        | .ok (.ok (path1, ps, hs, body)) =>
          match getOauthAccessToken env cache now with
          | .error e => .error e
          | .ok (tokOpt, cache1, n) =>
            let hs1 :=
              match tokOpt with
              | some t => if t != "" then dset hs "Authorization" (.str ("Bearer " ++ t)) else hs
              | Option.none => hs
            let hs2 := if hasKey hs1 "User-Agent" then hs1
                       else dset hs1 "User-Agent" (.str "OpenAPI-MCP/1.0")
            let fullUrl := rstripSlash serverUrl ++ "/" ++ lstripSlash path1
            .ok (.ok (fullUrl, ps, hs2, body, dryRun), cache1, n)

/-- What the upstream HTTP client returns for one request:
`raise_for_status` (or the request itself) raised, or a body that does or
does not decode as JSON. -/
structure ClientResponse where
  raiseErr : Bool
  json : Option PyVal
  text : String

/-- One upstream request as issued by `client.request(...)`:
method, url, params, headers, and the `json=` argument
(`req_body if req_body else None`). -/
structure UpstreamRequest where
  method : String
  url : String
  params : PyDict
  headers : PyDict
  body : Option PyVal

/-- `tool_func` from `MCPServer.generate_tool_function` (lines 474–506).
Returns the JSON-RPC response, the updated OAuth cache, the number of
token exchanges, and the trace of upstream requests issued (empty for
dry runs and for error/help short-circuits). -/
def toolFunc (env : OAuthEnv) (cache : OAuthCache) (now : Int)
    (method path serverUrl : String) (parameters : List PyVal)
    (client : UpstreamRequest → ClientResponse)
    (reqId : PyVal) (kwargs : PyDict) :
    Except PyErr (PyVal × OAuthCache × Nat × List UpstreamRequest) :=
  match prepareRequest env cache now reqId kwargs parameters path serverUrl with
  | .error e => .error e
  | .ok (.error resp, cache1, n) => .ok (resp, cache1, n, [])
  | .ok (.ok (fullUrl, ps, hs, body, dryRun), cache1, n) =>
    if pyTruthy dryRun then
      .ok (mkResult reqId (.dict
            [("dry_run", .bool true),
             ("request", .dict
               [("url", .str fullUrl), ("method", .str method),
                ("headers", .dict hs), ("params", .dict ps),
                ("body", body.getD PyVal.none)])]),
           cache1, n, [])
    else
      let jsonArg : Option PyVal :=
        match body with
        | some b => if pyTruthy b then some b else Option.none
        | Option.none => Option.none
      let req : UpstreamRequest :=
        { method := method, url := fullUrl, params := ps, headers := hs, body := jsonArg }
      let resp := client req
      if resp.raiseErr then
        .ok (mkError reqId (-32603) "request error", cache1, n, [req])
      else
        match resp.json with
        | some d => .ok (mkResult reqId (.dict [("data", d)]), cache1, n, [req])
        | Option.none =>
            .ok (mkResult reqId (.dict [("data", .dict [("raw_response", .str resp.text)])]),
                 cache1, n, [req])

/-! ## The `src/src/openapi-mcp.py` variant of `tool_func` (lines 195–306)

Differences from the `server.py` variant that the claims exercise: the
parameter-coercion loop is *not* wrapped in `try`/`except` (a conversion
failure raises out of the function), and the final URL is built with
`urljoin(server_url, path)`.  The module-level OAuth helper has no cache;
the token it would produce is an input. -/

/-- `get_endpoint_help_json` (lines 165–183). -/
def getEndpointHelpJson (endpoint : String) (opsInfo : PyDict) : Except PyErr PyVal :=
  let info := dgetD opsInfo endpoint PyVal.none
  if !(pyTruthy info) then
    .ok (.dict [("error", .str ("Endpoint not found: " ++ endpoint))])
  else
    match info with
    | .dict i =>
        .ok (.dict [("help", .dict
          [("endpoint", .str endpoint),
           ("method", dgetD i "method" (.str "")),
           ("path", dgetD i "path" (.str "")),
           ("summary", dgetD i "summary" (.str "")),
           ("parameters", dgetD i "parameters" (.list [])),
           ("global_options", .dict
             [("--dry-run", .str "Simulate execution without making an API call"),
              ("--param", .str "Provide parameters in key=value format (can be repeated)")])])])
    | _ => .error .raised

/-- The binding loop of the variant (lines 223–244): same coercion and
routing as `bindParamsAux`, but *no* `try` — a conversion failure is an
uncaught exception (`.error .raised`).  The schema type is read before
the membership test (line 226). -/
def bindParamsV2Aux (kwargs : PyDict) :
    List PyVal → String → PyDict → PyDict → Option PyVal →
    Except PyErr (String × PyDict × PyDict × Option PyVal)
  | [], path, ps, hs, body => .ok (path, ps, hs, body)
  | p :: rest, path, ps, hs, body =>
    match p with
    | .dict pd =>
      (match dget pd "name" with
       | some (.str name) =>
         (match dgetD pd "schema" (.dict []) with
          | .dict sd =>
            let tval := dgetD sd "type" (.str "string")
            if hasKey kwargs name then
              let val := (dget kwargs name).getD PyVal.none
              (match (match tval with
                      | .str t => coerceParamValue t val
                      | _ => Except.ok val) with
               | .error _ => .error .raised
               | .ok v =>
                 (match dgetD pd "in" (.str "query") with
                  | .str l =>
                    if l = "path" then
                      bindParamsV2Aux kwargs rest
                        (pyReplace path ("\x7b" ++ name ++ "\x7d") (pyStr v)) ps hs body
                    else if l = "query" then
                      bindParamsV2Aux kwargs rest path (dset ps name v) hs body
                    else if l = "header" then
                      bindParamsV2Aux kwargs rest path ps (dset hs name v) body
                    else if l = "body" then
                      bindParamsV2Aux kwargs rest path ps hs (some v)
                    else bindParamsV2Aux kwargs rest path ps hs body
                  | _ => bindParamsV2Aux kwargs rest path ps hs body))
            else bindParamsV2Aux kwargs rest path ps hs body
          | _ => .error .raised)
       | some _ => bindParamsV2Aux kwargs rest path ps hs body
       | Option.none => .error .raised)
    | _ => .error .raised

/-- `tool_func` of the `src/src/openapi-mcp.py` variant. -/
def toolFuncV2 (operationId method path : String) (parameters : List PyVal)
    (serverUrl : String) (opsInfo : PyDict) (oauthToken : Option String)
    (serverName : PyVal) (client : UpstreamRequest → ClientResponse)
    (kwargs : PyDict) :
    Except PyErr (PyVal × List UpstreamRequest) :=
  let kwargs0 := dremove kwargs "ctx"
  match (parameters.foldlM
      (fun (acc : List PyVal) p =>
        match p with
        | .dict pd =>
          (if pyTruthy (dgetD pd "required" (.bool false)) then
            match dget pd "name" with
            | some (.str n) =>
                Except.ok (if hasKey kwargs0 n then acc else acc ++ [.str n])
            | some v => Except.ok (acc ++ [v])
            | Option.none => Except.error PyErr.raised
          else Except.ok acc)
        | _ => Except.error PyErr.raised)
      ([] : List PyVal) : Except PyErr (List PyVal)) with
  | .error e => .error e
  | .ok missing =>
    if !missing.isEmpty then
      match getEndpointHelpJson operationId opsInfo with
      | .error e => .error e
      | .ok helpJson =>
          .ok (.dict [("jsonrpc", .str "2.0"), ("id", .int 0),
                      ("server_name", serverName), ("result", helpJson)], [])
    else
      let dryRun := dgetD kwargs0 "dry_run" (.bool false)
      let kwargs1 := dremove kwargs0 "dry_run"
      match bindParamsV2Aux kwargs1 parameters path [] [] Option.none with
      | .error e => .error e
      | .ok (path1, ps, hs, body) =>
        let hs1 :=
          match oauthToken with
          | some t => if t != "" then dset hs "Authorization" (.str ("Bearer " ++ t)) else hs
          | Option.none => hs
        let fullUrl := urljoinModel serverUrl path1
        if pyTruthy dryRun then
          .ok (.dict [("jsonrpc", .str "2.0"), ("id", .int 0),
                      ("server_name", serverName),
                      ("result", .dict
                        [("dry_run", .bool true),
                         ("description", .str "This is a simulated API call. No request was sent."),
                         ("request", .dict
                           [("url", .str fullUrl), ("method", .str (strUpper method)),
                            ("headers", .dict hs1), ("params", .dict ps),
                            ("body", body.getD PyVal.none)])])], [])
        else
          let jsonArg : Option PyVal :=
            match body with
            | some b => if pyTruthy b then some b else Option.none
            | Option.none => Option.none
          let req : UpstreamRequest :=
            { method := method, url := fullUrl, params := ps, headers := hs1, body := jsonArg }
          let resp := client req
          if resp.raiseErr then
            .ok (.dict [("jsonrpc", .str "2.0"), ("id", .int 0),
                        ("server_name", serverName),
                        ("error", .dict [("code", .int (-32000)),
                                         ("message", .str "request error")])], [req])
          else
            match resp.json with
            | some d =>
                .ok (.dict [("jsonrpc", .str "2.0"), ("id", .int 0),
                            ("server_name", serverName), ("result", d)], [req])
            | Option.none =>
                .ok (.dict [("jsonrpc", .str "2.0"), ("id", .int 0),
                            ("server_name", serverName),
                            ("result", .dict [("raw_response", .str resp.text)])], [req])

/-! ## Pagination (`src/openapi-mcp.py`, `tool_func` lines 430–454)

The page-walking loop only (the surrounding function issues one initial
request before entering the loop, lines 418–419).  The upstream is a
function from the requested `page` value to a response; the loop result
carries the trace of requested page numbers.  Since the Python loop need
not terminate (the server controls `totalPages`), the model is
fuel-indexed, `Option.none` meaning the fuel ran out. -/

inductive PageResp where
  | err
  | jsonBody (v : PyVal)
  | textBody (t : String)

inductive PagesOutcome where
  | ok (pages : List PyVal)
  | errMsg
  | raised

/-- `current_page >= total_pages - 1` for the numeric types Python would
accept; `Option.none` models the `TypeError` raised for non-numbers. -/
def geTotalMinus1 (cur : Nat) : PyVal → Option Bool
  | .int n => some (decide ((cur : Int) ≥ n - 1))
  | .bool b => some (decide ((cur : Int) ≥ (if b then 1 else 0) - 1))
  | .float q => some (decide ((cur : Rat) ≥ q - 1))
  | _ => Option.none

/-- The page-walking loop.  Returns the outcome and the ordered list of
`page` parameter values requested. -/
def pagesLoop (respond : Nat → PageResp) : Nat → Nat → List PyVal →
    Option (PagesOutcome × List Nat)
  | 0, _, _ => Option.none
  | Nat.succ fuel, cur, acc =>
    match respond cur with
    | .err => some (.errMsg, [cur])
    | .textBody t => some (.ok (acc ++ [.str t]), [cur])
    | .jsonBody v =>
      match v with
      | .dict d =>
        if hasKey d "page" then
          match (dget d "page").getD PyVal.none with
          | .dict pi =>
            (match geTotalMinus1 cur (dgetD pi "totalPages" (.int 1)) with
             | some true => some (.ok (acc ++ [.dict d]), [cur])
             | some false =>
               (match pagesLoop respond fuel (cur + 1) (acc ++ [.dict d]) with
                | some (out, reqs) => some (out, cur :: reqs)
                | Option.none => Option.none)
             | Option.none => some (.raised, [cur]))
          | _ => some (.raised, [cur])
        else some (.ok (acc ++ [.dict d]), [cur])
      | _ => some (.ok (acc ++ [v]), [cur])

/-! ## Shared concrete fixtures and projection helpers for the theorems -/

/-- Project through nested dict keys. -/
def dig : PyVal → List String → Option PyVal
  | v, [] => some v
  | .dict d, k :: ks =>
    (match dget d k with
     | some v => dig v ks
     | Option.none => Option.none)
  | _, _ => Option.none

def envNoAuth : OAuthEnv := ⟨Option.none⟩

def cacheEmpty : OAuthCache := ⟨Option.none, 0⟩

/-- A client that is never reached by the dry-run / short-circuit paths. -/
def clientUnused : UpstreamRequest → ClientResponse := fun _ => ⟨false, Option.none, ""⟩

def limitIntParam : PyVal :=
  .dict [("name", .str "limit"), ("in", .str "query"),
         ("schema", .dict [("type", .str "integer")])]

def idPathParam : PyVal :=
  .dict [("name", .str "id"), ("in", .str "path"), ("required", .bool true),
         ("schema", .dict [("type", .str "integer")])]

theorem dget_eq_none_of_hasKey_false (d : PyDict) (k : String) (h : hasKey d k = false) :
    dget d k = Option.none := by
  unfold hasKey at h
  exact Option.not_isSome_iff_eq_none.mp (by simp [h])

/-- **C4 counterexample**: in the `src/src/openapi-mcp.py` variant the
coercion loop is not guarded by `try`, so binding `"abc"` to an
`integer` parameter raises an uncaught `ValueError` out of the tool
function — no `-32602` envelope is returned, refuting "binding returns an
error envelope with code -32602 and never raises an uncaught exception"
for that cited variant. -/
theorem coercion_uncaught_counterexample :
    toolFuncV2 "get_widgets" "get" "/widgets" [limitIntParam] "https://host" []
        Option.none PyVal.none clientUnused [("limit", .str "abc")] = .error .raised ∧
    (toolFuncV2 "get_widgets" "get" "/widgets" [limitIntParam] "https://host" []
        Option.none PyVal.none clientUnused [("limit", .str "abc")]).toOption
      = Option.none :=
  ⟨rfl, rfl⟩

/-- **C4** — corrected.  In `MCPServer._prepare_request` the claim holds:
coercion per declared `schema.type` (`integer` via `int()`, `number` via
`float()`, `boolean` via case-insensitive membership of the stringified
value in `{"true","1","yes","y"}`, everything else unchanged), `"5"`
binds to the integer `5`, and a failing coercion produces a `-32602`
error envelope with no upstream request and no uncaught exception.  The
amendment (forced by `coercion_uncaught_counterexample`) is that the
`src/src/openapi-mcp.py` variant instead lets the conversion exception
propagate. -/
theorem parameter_coercion :
    (∀ t v, t ≠ "integer" → t ≠ "number" → t ≠ "boolean" →
        coerceParamValue t v = .ok v) ∧
    (∀ v, coerceParamValue "boolean" v
        = .ok (.bool (["true", "1", "yes", "y"].contains (strLower (pyStr v))))) ∧
    (∀ v, coerceParamValue "integer" v
        = (match pyInt v with
           | some n => .ok (.int n)
           | Option.none => .error ())) ∧
    (∀ v, coerceParamValue "number" v
        = (match pyFloat v with
           | some q => .ok (.float q)
           | Option.none => .error ())) ∧
    ((toolFunc envNoAuth cacheEmpty 0 "GET" "/widgets" "https://host" [limitIntParam]
        clientUnused PyVal.none [("limit", .str "5"), ("dry_run", .bool true)]).map
        (fun r => dig r.1 ["result", "request", "params"])
      = .ok (some (.dict [("limit", .int 5)]))) ∧
    ((toolFunc envNoAuth cacheEmpty 0 "GET" "/widgets" "https://host" [limitIntParam]
        clientUnused PyVal.none [("limit", .str "abc")]).map
        (fun r => (dig r.1 ["error", "code"], r.2.2.2))
      = .ok (some (.int (-32602)), [])) := by
  refine ⟨?_, fun v => rfl, fun v => rfl, fun v => rfl, rfl, rfl⟩
  intro t v h1 h2 h3
  unfold coerceParamValue
  simp [h1, h2, h3]

/-- Witness for `parameter_coercion`: the pass-through conjunct at the
concrete type tag `"string"` and value `[]`. -/
theorem parameter_coercion_witness :
    coerceParamValue "string" (.list []) = .ok (.list []) :=
  parameter_coercion.1 "string" (.list []) (by decide) (by decide) (by decide)

/-- **C5** — confirmed.  When at least one required parameter is absent,
`tool_func` returns a success-shaped JSON-RPC response whose payload has
a `help` key naming the missing parameters, the OAuth cache is untouched
(no token exchange), and no upstream request is issued.  (`mkResult`
responses carry a `result` member and no `error` member.) -/
theorem missing_required_params_help
    (env : OAuthEnv) (cache : OAuthCache) (now : Int) (method path serverUrl : String)
    (params : List PyVal) (client : UpstreamRequest → ClientResponse)
    (reqId : PyVal) (kwargs : PyDict) (expected : List PyVal)
    (hnk : hasKey kwargs "kwargs" = false)
    (hreq : requiredParamNames params = .ok expected)
    (hmiss : missingOf kwargs expected ≠ []) :
    toolFunc env cache now method path serverUrl params client reqId kwargs
      = .ok (mkResult reqId (.dict [("help",
          .str ("Missing parameters: " ++ pyRepr (.list (missingOf kwargs expected))))]),
        cache, 0, []) ∧
    dig (mkResult reqId (.dict [("help",
        .str ("Missing parameters: " ++ pyRepr (.list (missingOf kwargs expected))))]))
      ["error"] = Option.none ∧
    dig (mkResult reqId (.dict [("help",
        .str ("Missing parameters: " ++ pyRepr (.list (missingOf kwargs expected))))]))
      ["result", "help"]
      = some (.str ("Missing parameters: " ++ pyRepr (.list (missingOf kwargs expected)))) := by
  have hdg : dget kwargs "kwargs" = Option.none := dget_eq_none_of_hasKey_false _ _ hnk
  have hne : (missingOf kwargs expected).isEmpty = false := by
    cases h : missingOf kwargs expected with
    | nil => exact absurd h hmiss
    | cons a l => rfl
  refine ⟨?_, rfl, rfl⟩
  unfold toolFunc prepareRequest mergeKwargsKey
  rw [hdg, hreq]
  simp [hne]

/-- Witness for `missing_required_params_help` at a concrete operation
with a required `lat` parameter and an empty argument map. -/
theorem missing_required_params_help_witness :
    toolFunc envNoAuth cacheEmpty 0 "GET" "/points" "https://host"
        [.dict [("name", .str "lat"), ("in", .str "query"), ("required", .bool true)]]
        clientUnused PyVal.none []
      = .ok (mkResult PyVal.none (.dict [("help",
          .str ("Missing parameters: " ++ pyRepr (.list (missingOf []
                  [.str "lat"]))))]),
        cacheEmpty, 0, []) :=
  (missing_required_params_help envNoAuth cacheEmpty 0 "GET" "/points" "https://host"
    [.dict [("name", .str "lat"), ("in", .str "query"), ("required", .bool true)]]
    clientUnused PyVal.none [] [.str "lat"] rfl rfl (by simp [missingOf, hasKey, dget])).1

/-- **C6 counterexample**: the `src/src/openapi-mcp.py` variant builds
the final URL with `urljoin(server_url, path)`, under which the bound
path `/widgets/7` (leading slash) *replaces* the server URL's `/api`
path: the claim's own example yields `https://host/widgets/7` there, not
`https://host/api/widgets/7`. -/
theorem url_join_variant_counterexample :
    (toolFuncV2 "get_widget" "get" "/widgets/\x7bid\x7d" [idPathParam] "https://host/api/"
        [] Option.none PyVal.none clientUnused
        [("id", .int 7), ("dry_run", .bool true)]).map
      (fun r => dig r.1 ["result", "request", "url"])
      = .ok (some (.str "https://host/widgets/7")) ∧
    urljoinModel "https://host/api/" "/widgets/7" = "https://host/widgets/7" ∧
    ("https://host/widgets/7" : String) ≠ "https://host/api/widgets/7" :=
  ⟨rfl, rfl, by decide⟩

/-- **C6** — corrected.  In `MCPServer._prepare_request` the final URL is
exactly `server_url.rstrip("/") + "/" + path.lstrip("/")`; adding a
trailing slash to the server URL or a leading slash to the path does not
change the result, and the claim's example binds to
`https://host/api/widgets/7`.  The amendment (forced by
`url_join_variant_counterexample`) is that the `src/src/openapi-mcp.py`
variant instead uses `urljoin`, under which a leading-slash path replaces
the server URL's path (`https://host/widgets/7` on the same example). -/
theorem url_joining :
    (∀ s : String, rstripSlash (s ++ "/") = rstripSlash s) ∧
    (∀ p : String, lstripSlash ("/" ++ p) = lstripSlash p) ∧
    ((toolFunc envNoAuth cacheEmpty 0 "GET" "/widgets/\x7bid\x7d" "https://host/api/"
        [idPathParam] clientUnused PyVal.none
        [("id", .int 7), ("dry_run", .bool true)]).map
      (fun r => dig r.1 ["result", "request", "url"])
      = .ok (some (.str "https://host/api/widgets/7"))) ∧
    urljoinModel "https://host/api/" "/widgets/7" = "https://host/widgets/7" := by
  refine ⟨?_, ?_, rfl, rfl⟩
  · intro s
    unfold rstripSlash
    have h : (s ++ "/").data = s.data ++ ['/'] := String.data_append s "/"
    rw [h]
    simp
  · intro p
    unfold lstripSlash
    have h : ("/" ++ p).data = '/' :: p.data := String.data_append "/" p
    rw [h]
    simp

/-- **C7** — confirmed.  The cache never returns an already-expired token
(`get_token` yields a token only while `now < expiry`), and in the
claim's scenario (credentials configured, fresh cache): the first call
performs exactly one exchange and caches the token, a second call within
the token's lifetime performs none (one exchange in total), and a call at
or after expiry performs a second exchange. -/
theorem credential_cache_behavior :
    (∀ (c : OAuthCache) (now : Int) (t : String),
        OAuthCache.get_token c now = some t → now < c.expiry) ∧
    (∀ (ex : ExchangeSpec) (tok : String) (t1 t2 t3 : Int),
        ex.fails = false → ex.accessToken = some tok → tok ≠ "" →
        t2 < t1 + ex.expiresIn → t1 + ex.expiresIn ≤ t3 →
        getOauthAccessToken ⟨some ex⟩ ⟨Option.none, 0⟩ t1
            = .ok (some tok, ⟨some tok, t1 + ex.expiresIn⟩, 1) ∧
        getOauthAccessToken ⟨some ex⟩ ⟨some tok, t1 + ex.expiresIn⟩ t2
            = .ok (some tok, ⟨some tok, t1 + ex.expiresIn⟩, 0) ∧
        getOauthAccessToken ⟨some ex⟩ ⟨some tok, t1 + ex.expiresIn⟩ t3
            = .ok (some tok, ⟨some tok, t3 + ex.expiresIn⟩, 1)) := by
  constructor
  · intro c now t h
    unfold OAuthCache.get_token at h
    cases htok : c.token with
    | none => rw [htok] at h; exact absurd h (by simp)
    | some t0 =>
      rw [htok] at h
      have h' : (if (t0 != "" && decide (now < c.expiry)) = true then some t0
                 else Option.none) = some t := h
      by_cases hc : (t0 != "" && decide (now < c.expiry)) = true
      · have := (Bool.and_eq_true _ _).mp hc
        exact of_decide_eq_true this.2
      · rw [if_neg hc] at h'; exact absurd h' (by simp)
  · intro ex tok t1 t2 t3 hf ha hne h2 h3
    have hbne : (tok != "") = true := bne_iff_ne.mpr hne
    refine ⟨?_, ?_, ?_⟩
    · unfold getOauthAccessToken OAuthCache.get_token OAuthCache.set_token
      simp [hf, ha]
    · unfold getOauthAccessToken OAuthCache.get_token
      simp [hbne, h2]
    · unfold getOauthAccessToken OAuthCache.get_token OAuthCache.set_token
      have : ¬ (t3 < t1 + ex.expiresIn) := by omega
      simp [hbne, this, hf, ha]

/-- Witness for `credential_cache_behavior` at a concrete exchange
(token `"T"`, lifetime 3600, calls at 0, 10 and 3600). -/
theorem credential_cache_behavior_witness :
    getOauthAccessToken ⟨some ⟨some "T", 3600, false⟩⟩ ⟨Option.none, 0⟩ 0
        = .ok (some "T", ⟨some "T", 3600⟩, 1) ∧
    getOauthAccessToken ⟨some ⟨some "T", 3600, false⟩⟩ ⟨some "T", 3600⟩ 10
        = .ok (some "T", ⟨some "T", 3600⟩, 0) ∧
    getOauthAccessToken ⟨some ⟨some "T", 3600, false⟩⟩ ⟨some "T", 3600⟩ 3600
        = .ok (some "T", ⟨some "T", 7200⟩, 1) :=
  credential_cache_behavior.2 ⟨some "T", 3600, false⟩ "T" 0 10 3600
    rfl rfl (by decide) (by decide) (by decide)

/-- **C9 counterexample**: with OAuth credentials configured and an empty
cache, a dry-run invocation performs a token exchange — one network call
to the token endpoint (though none to the upstream API) — refuting
"neither invocation issues any network call" as stated. -/
theorem dry_run_token_exchange_counterexample :
    (toolFunc ⟨some ⟨some "T", 3600, false⟩⟩ cacheEmpty 0 "GET" "/w" "https://host" []
        clientUnused PyVal.none [("dry_run", .bool true)]).map
      (fun r => (r.2.2.1, r.2.2.2))
      = .ok (1, []) ∧
    (1 : Nat) ≠ 0 :=
  ⟨rfl, by decide⟩

/-- **C9** — corrected.  Two dry-run invocations with identical arguments
that observe the same OAuth token produce identical JSON-RPC responses —
in particular byte-identical `request` blocks — and neither issues any
upstream request.  The amendment (forced by
`dry_run_token_exchange_counterexample`) is that "zero network calls"
holds only for the upstream API: when OAuth credentials are configured
and the cached token is missing or expired, the dry-run invocation still
performs a token exchange. -/
theorem dry_run_idempotent
    (env : OAuthEnv) (cache : OAuthCache) (now1 now2 : Int)
    (method path serverUrl : String) (params : List PyVal)
    (client1 client2 : UpstreamRequest → ClientResponse)
    (reqId : PyVal) (kwargs : PyDict)
    (tok : Option String) (c1 c2 : OAuthCache) (n1 n2 : Nat)
    (hdry : pyTruthy (dgetD kwargs "dry_run" (.bool false)) = true)
    (hnk : hasKey kwargs "kwargs" = false)
    (ho1 : getOauthAccessToken env cache now1 = .ok (tok, c1, n1))
    (ho2 : getOauthAccessToken env c1 now2 = .ok (tok, c2, n2)) :
    ((toolFunc env cache now1 method path serverUrl params client1 reqId kwargs).map
        (fun r => (r.1, r.2.2.2))
      = (toolFunc env c1 now2 method path serverUrl params client2 reqId kwargs).map
        (fun r => (r.1, r.2.2.2))) ∧
    ((toolFunc env cache now1 method path serverUrl params client1 reqId kwargs).map
        (fun r => r.2.2.2)
      = (toolFunc env cache now1 method path serverUrl params client1 reqId kwargs).map
        (fun _ => ([] : List UpstreamRequest))) := by
  have hdg : dget kwargs "kwargs" = Option.none := dget_eq_none_of_hasKey_false _ _ hnk
  constructor
  · unfold toolFunc prepareRequest mergeKwargsKey
    rw [hdg]
    cases hr : requiredParamNames params with
    | error e => rfl
    | ok expected =>
      cases hm : (missingOf kwargs expected).isEmpty with
      | false => simp [hm, Except.map]
      | true =>
        simp only [hm]
        cases hb : bindParamsAux reqId (dremove kwargs "dry_run") params path [] [] Option.none with
        | error e => simp [hm, hb, Except.map]
        | ok r =>
          cases r with
          | error resp => simp [hm, hb, Except.map]
          | ok tup =>
            obtain ⟨p1, ps, hs, body⟩ := tup
            simp [hm, hb, ho1, ho2, hdry, Except.map]
  · unfold toolFunc prepareRequest mergeKwargsKey
    rw [hdg]
    cases hr : requiredParamNames params with
    | error e => rfl
    | ok expected =>
      cases hm : (missingOf kwargs expected).isEmpty with
      | false => simp [hm, Except.map]
      | true =>
        simp only [hm]
        cases hb : bindParamsAux reqId (dremove kwargs "dry_run") params path [] [] Option.none with
        | error e => simp [hm, hb, Except.map]
        | ok r =>
          cases r with
          | error resp => simp [hm, hb, Except.map]
          | ok tup =>
            obtain ⟨p1, ps, hs, body⟩ := tup
            simp [hm, hb, ho1, hdry, Except.map]

/-- Witness for `dry_run_idempotent`: two concrete dry-run calls with no
OAuth configured (zero exchanges, zero upstream requests). -/
theorem dry_run_idempotent_witness :
    ((toolFunc envNoAuth cacheEmpty 0 "GET" "/w" "https://host" [] clientUnused
        PyVal.none [("dry_run", .bool true)]).map (fun r => (r.1, r.2.2.2))
      = (toolFunc envNoAuth cacheEmpty 5 "GET" "/w" "https://host" [] clientUnused
        PyVal.none [("dry_run", .bool true)]).map (fun r => (r.1, r.2.2.2))) ∧
    ((toolFunc envNoAuth cacheEmpty 0 "GET" "/w" "https://host" [] clientUnused
        PyVal.none [("dry_run", .bool true)]).map (fun r => r.2.2.2)
      = (toolFunc envNoAuth cacheEmpty 0 "GET" "/w" "https://host" [] clientUnused
        PyVal.none [("dry_run", .bool true)]).map (fun _ => ([] : List UpstreamRequest))) :=
  dry_run_idempotent envNoAuth cacheEmpty 0 5 "GET" "/w" "https://host" []
    clientUnused clientUnused PyVal.none [("dry_run", .bool true)]
    Option.none cacheEmpty cacheEmpty 0 0 rfl rfl rfl rfl

/-! ## Pagination fixtures and theorems (claim C1) -/

def pageWithTotal3 : PyVal := .dict [("page", .dict [("totalPages", .int 3)])]

def pageNonObjectPage : PyVal := .dict [("page", .int 5)]

/-- A response that does not match the paginated pattern at its top
level: not a dict, or a dict without a `page` key. -/
def shapeNotPaginated : PyVal → Bool
  | .dict d => !(hasKey d "page")
  | _ => true

/-- **C1 counterexample**: when a response is a JSON object whose `page`
value is *not* an object (here `{"page": 5}`), the loop does not treat it
as the last page and return the collected payloads — it raises an
uncaught `AttributeError` (`page_info.get` on an `int`). -/
theorem pagination_nonobject_page_counterexample :
    pagesLoop (fun _ => .jsonBody pageNonObjectPage) 10 0 [] = some (.raised, [0]) ∧
    pagesLoop (fun _ => .jsonBody pageNonObjectPage) 10 0 []
      ≠ some (.ok [pageNonObjectPage], [0]) := by
  constructor
  · rfl
  · intro h
    rw [show pagesLoop (fun _ => .jsonBody pageNonObjectPage) 10 0 []
          = some (.raised, [0]) from rfl] at h
    simp at h

/-- **C1** — corrected.  With every response equal to
`{"page": {"totalPages": 3}}`, the page-walking loop stops after exactly
three requests (pages 0, 1, 2) and returns the three payloads in request
order.  In general the loop stops, treating the current response as the
last page, as soon as `current_page >= totalPages - 1` (with
`totalPages` defaulting to 1), or as soon as the response is not a JSON
object containing a `page` key (including non-JSON text bodies).  The
amendment (forced by `pagination_nonobject_page_counterexample`) is that
a `page` value that is not itself an object makes the loop raise rather
than stop. -/
theorem pagination_termination :
    (pagesLoop (fun _ => .jsonBody pageWithTotal3) 10 0 []
      = some (.ok [pageWithTotal3, pageWithTotal3, pageWithTotal3], [0, 1, 2])) ∧
    (∀ (respond : Nat → PageResp) (fuel cur : Nat) (acc : List PyVal)
        (d pi : PyDict),
      respond cur = .jsonBody (.dict d) →
      dget d "page" = some (.dict pi) →
      geTotalMinus1 cur (dgetD pi "totalPages" (.int 1)) = some true →
      pagesLoop respond (fuel + 1) cur acc = some (.ok (acc ++ [.dict d]), [cur])) ∧
    (∀ (respond : Nat → PageResp) (fuel cur : Nat) (acc : List PyVal) (v : PyVal),
      respond cur = .jsonBody v → shapeNotPaginated v = true →
      pagesLoop respond (fuel + 1) cur acc = some (.ok (acc ++ [v]), [cur])) ∧
    (∀ (respond : Nat → PageResp) (fuel cur : Nat) (acc : List PyVal) (t : String),
      respond cur = .textBody t →
      pagesLoop respond (fuel + 1) cur acc = some (.ok (acc ++ [.str t]), [cur])) := by
  refine ⟨rfl, ?_, ?_, ?_⟩
  · intro respond fuel cur acc d pi hresp hpage htot
    have hk : hasKey d "page" = true := by unfold hasKey; rw [hpage]; rfl
    unfold pagesLoop
    rw [hresp]
    simp [hk, hpage, htot]
  · intro respond fuel cur acc v hresp hshape
    unfold pagesLoop
    rw [hresp]
    cases v with
    | dict d =>
      have hk : hasKey d "page" = false := by
        unfold shapeNotPaginated at hshape
        simpa using hshape
      simp [hk]
    | none => rfl
    | bool b => rfl
    | int n => rfl
    | float q => rfl
    | str s => rfl
    | list xs => rfl
  · intro respond fuel cur acc t hresp
    unfold pagesLoop
    rw [hresp]

/-- Witness for `pagination_termination`: the one-step stop at a concrete
response with `totalPages = 1` on page 0. -/
theorem pagination_termination_witness :
    pagesLoop (fun _ => .jsonBody (.dict [("page", .dict [("totalPages", .int 1)])])) 1 0 []
      = some (.ok [.dict [("page", .dict [("totalPages", .int 1)])]], [0]) :=
  pagination_termination.2.1 _ 0 0 [] _ _ rfl rfl rfl

theorem dropWhile_head_false {p : Char → Bool} {l : List Char} {c : Char} {t : List Char}
    (h : l.dropWhile p = c :: t) : p c = false := by
  induction l with
  | nil => simp at h
  | cons a as ih =>
    by_cases ha : p a = true
    · rw [List.dropWhile_cons_of_pos ha] at h; exact ih h
    · rw [List.dropWhile_cons_of_neg ha] at h
      cases h
      exact Bool.not_eq_true _ |>.mp ha

theorem dropWhile_eq_self_of_head {p : Char → Bool} {l : List Char}
    (h : ∀ c t, l = c :: t → p c = false) : l.dropWhile p = l := by
  cases l with
  | nil => rfl
  | cons a as => rw [List.dropWhile_cons_of_neg]; simp [h a as rfl]

theorem dropWhile_dropWhile (p : Char → Bool) (l : List Char) :
    (l.dropWhile p).dropWhile p = l.dropWhile p := by
  apply dropWhile_eq_self_of_head
  intro c t h
  exact dropWhile_head_false h

theorem skipWs_suffix (cs : List Char) : skipWs cs <:+ cs := by
  unfold skipWs
  exact ⟨cs.takeWhile jsonWs, List.takeWhile_append_dropWhile jsonWs cs⟩

theorem suffix_cons_self (c : Char) (t : List Char) : t <:+ c :: t := ⟨[c], rfl⟩

theorem jsonWs_isSpace {c : Char} (h : jsonWs c = true) : charIsSpace c = true := by
  unfold jsonWs at h
  unfold charIsSpace
  rcases Bool.or_eq_true _ _ |>.mp h with h1 | h1
  · rcases Bool.or_eq_true _ _ |>.mp h1 with h2 | h2
    · rcases Bool.or_eq_true _ _ |>.mp h2 with h3 | h3 <;> simp_all
    · simp_all
  · simp_all

theorem parseJStringAux_suffix :
    ∀ (acc cs : List Char) (s rest : List Char),
      parseJStringAux acc cs = some (s, rest) → rest <:+ cs := by
  intro acc cs
  induction acc, cs using parseJStringAux.induct with
  | case1 acc =>
    intro s rest h
    simp [parseJStringAux.eq_def] at h
  | case2 acc rest0 =>
    intro s rest h
    rw [parseJStringAux.eq_def] at h
    simp only [reduceIte, Option.some.injEq, Prod.mk.injEq] at h
    obtain ⟨h1, h2⟩ := h
    subst h2
    exact suffix_cons_self _ _
  | case3 acc h1c h2c h3c h4c rest3 a b c2 d ha hb hc2 hd hne ih =>
    intro s rest h
    rw [parseJStringAux.eq_def] at h
    simp only [reduceIte, ha, hb, hc2, hd] at h
    exact ((((((ih _ _ h).trans (suffix_cons_self _ _)).trans (suffix_cons_self _ _)).trans
      (suffix_cons_self _ _)).trans (suffix_cons_self _ _)).trans (suffix_cons_self _ _)).trans
      (suffix_cons_self _ _)
  | case4 acc h1c h2c h3c h4c rest3 hnone hne =>
    intro s rest h
    rw [parseJStringAux.eq_def] at h
    simp only [reduceIte] at h
    rw [if_neg hne] at h
    simp at h
  | case5 acc e rest2 hnotu d hesc hne ih =>
    intro s rest h
    rw [parseJStringAux.eq_def] at h
    simp only [reduceIte] at h
    rw [if_neg hne, hesc] at h
    exact ((ih _ _ h).trans (suffix_cons_self _ _)).trans (suffix_cons_self _ _)
  | case6 acc e rest2 hnotu hesc hne =>
    intro s rest h
    rw [parseJStringAux.eq_def] at h
    simp only [reduceIte] at h
    rw [if_neg hne, hesc] at h
    simp at h
  | case7 acc hne =>
    intro s rest h
    rw [parseJStringAux.eq_def] at h
    simp only [reduceIte] at h
    rw [if_neg hne] at h
    simp at h
  | case8 acc c rest0 hq hb hctl =>
    intro s rest h
    rw [parseJStringAux.eq_def] at h
    simp only [reduceIte] at h
    rw [if_neg hq, if_neg hb, if_pos hctl] at h
    simp at h
  | case9 acc c rest0 hq hb hctl ih =>
    intro s rest h
    rw [parseJStringAux.eq_def] at h
    simp only [reduceIte] at h
    rw [if_neg hq, if_neg hb, if_neg hctl] at h
    exact (ih _ _ h).trans (suffix_cons_self _ _)

theorem splitSign_suffix (cs : List Char) : (splitSign cs).2 <:+ cs := by
  unfold splitSign
  split
  · exact suffix_cons_self _ _
  · exact suffix_cons_self _ _
  · exact List.suffix_rfl

theorem splitNeg_suffix (cs : List Char) : (splitNeg cs).2 <:+ cs := by
  unfold splitNeg
  split
  · exact suffix_cons_self _ _
  · exact List.suffix_rfl

theorem parseJNumExp_suffix (ipds fds : List Char) (isF neg : Bool) :
    ∀ (cs : List Char) (v : PyVal) (rest : List Char),
      parseJNumExp ipds fds isF neg cs = some (v, rest) → rest <:+ cs := by
  intro cs v rest h
  cases cs with
  | nil =>
    simp only [parseJNumExp, Option.some.injEq, Prod.mk.injEq] at h
    rw [← h.2]
  | cons c r2 =>
    simp only [parseJNumExp] at h
    by_cases he : (c = 'e' || c = 'E') = true
    · rw [if_pos he] at h
      by_cases hemp : ((splitSign r2).2.takeWhile isDigit).isEmpty = true
      · rw [if_pos hemp] at h
        exact absurd h (by simp)
      · rw [if_neg hemp] at h
        simp only [Option.some.injEq, Prod.mk.injEq] at h
        rw [← h.2]
        exact ((List.drop_suffix _ _).trans (splitSign_suffix r2)).trans (suffix_cons_self c r2)
    · rw [if_neg he] at h
      simp only [Option.some.injEq, Prod.mk.injEq] at h
      rw [← h.2]

theorem parseJNumFrac_suffix (ipds : List Char) (neg : Bool) :
    ∀ (cs : List Char) (v : PyVal) (rest : List Char),
      parseJNumFrac ipds neg cs = some (v, rest) → rest <:+ cs := by
  intro cs v rest h
  rw [parseJNumFrac.eq_def] at h
  split at h
  next r2 =>
    simp only [] at h
    by_cases hemp : (r2.takeWhile isDigit).isEmpty = true
    · rw [if_pos hemp] at h
      exact absurd h (by simp)
    · rw [if_neg hemp] at h
      exact ((parseJNumExp_suffix _ _ _ _ _ _ _ h).trans (List.drop_suffix _ _)).trans
        (suffix_cons_self _ _)
  next r hne =>
    exact parseJNumExp_suffix _ _ _ _ _ _ _ h

theorem parseJNumber_suffix (cs : List Char) (v : PyVal) (rest : List Char)
    (h : parseJNumber cs = some (v, rest)) : rest <:+ cs := by
  unfold parseJNumber at h
  simp only [] at h
  rcases hsn : (splitNeg cs).2 with _ | ⟨c, r⟩ <;> rw [hsn] at h
  · exact absurd h (by simp)
  · simp only [] at h
    have hr : (c :: r) <:+ cs := hsn ▸ splitNeg_suffix cs
    by_cases h0 : c = '0'
    · rw [if_pos h0] at h
      exact ((parseJNumFrac_suffix _ _ _ _ _ h).trans (suffix_cons_self c r)).trans hr
    · rw [if_neg h0] at h
      by_cases hd : isDigit c = true
      · rw [if_pos hd] at h
        exact (((parseJNumFrac_suffix _ _ _ _ _ h).trans (List.drop_suffix _ _)).trans
          (suffix_cons_self c r)).trans hr
      · rw [if_neg hd] at h
        exact absurd h (by simp)

/-- Discriminator used by the parser shape lemmas. -/
def isDictV : PyVal → Bool
  | .dict _ => true
  | _ => false

theorem isDictV_mkJNumber (ipds fds : List Char) (e : Int) (isF neg : Bool) :
    isDictV (mkJNumber ipds fds e isF neg) = false := by
  unfold mkJNumber
  split <;> rfl

theorem parseJNumExp_shape (ipds fds : List Char) (isF neg : Bool) :
    ∀ (cs : List Char) (v : PyVal) (rest : List Char),
      parseJNumExp ipds fds isF neg cs = some (v, rest) → isDictV v = false := by
  intro cs v rest h
  cases cs with
  | nil =>
    simp only [parseJNumExp, Option.some.injEq, Prod.mk.injEq] at h
    rw [← h.1]
    exact isDictV_mkJNumber _ _ _ _ _
  | cons c r2 =>
    simp only [parseJNumExp] at h
    by_cases he : (c = 'e' || c = 'E') = true
    · rw [if_pos he] at h
      by_cases hemp : ((splitSign r2).2.takeWhile isDigit).isEmpty = true
      · rw [if_pos hemp] at h
        exact absurd h (by simp)
      · rw [if_neg hemp] at h
        simp only [Option.some.injEq, Prod.mk.injEq] at h
        rw [← h.1]
        exact isDictV_mkJNumber _ _ _ _ _
    · rw [if_neg he] at h
      simp only [Option.some.injEq, Prod.mk.injEq] at h
      rw [← h.1]
      exact isDictV_mkJNumber _ _ _ _ _

theorem parseJNumFrac_shape (ipds : List Char) (neg : Bool) :
    ∀ (cs : List Char) (v : PyVal) (rest : List Char),
      parseJNumFrac ipds neg cs = some (v, rest) → isDictV v = false := by
  intro cs v rest h
  rw [parseJNumFrac.eq_def] at h
  split at h
  next r2 =>
    simp only [] at h
    by_cases hemp : (r2.takeWhile isDigit).isEmpty = true
    · rw [if_pos hemp] at h
      exact absurd h (by simp)
    · rw [if_neg hemp] at h
      exact parseJNumExp_shape _ _ _ _ _ _ _ h
  next r hne =>
    exact parseJNumExp_shape _ _ _ _ _ _ _ h

theorem parseJNumber_shape (cs : List Char) (v : PyVal) (rest : List Char)
    (h : parseJNumber cs = some (v, rest)) : isDictV v = false := by
  unfold parseJNumber at h
  simp only [] at h
  rcases hsn : (splitNeg cs).2 with _ | ⟨c, r⟩ <;> rw [hsn] at h
  · exact absurd h (by simp)
  · simp only [] at h
    by_cases h0 : c = '0'
    · rw [if_pos h0] at h
      exact parseJNumFrac_shape _ _ _ _ _ h
    · rw [if_neg h0] at h
      by_cases hd : isDigit c = true
      · rw [if_pos hd] at h
        exact parseJNumFrac_shape _ _ _ _ _ h
      · rw [if_neg hd] at h
        exact absurd h (by simp)

theorem jparse_suffix :
    ∀ (f : Nat) (m : JMode) (cs : List Char) (v : PyVal) (rest : List Char),
      jparse f m cs = some (v, rest) → rest <:+ cs := by
  intro f
  induction f with
  | zero =>
    intro m cs v rest h
    simp [jparse] at h
  | succ fuel ih =>
    intro m cs v rest h
    cases m with
    | value =>
      rw [jparse.eq_def] at h
      simp only [] at h
      rcases hsw : skipWs cs with _ | ⟨c, rest0⟩ <;> rw [hsw] at h
      · simp at h
      · simp only [] at h
        have hsfx0 : (c :: rest0) <:+ cs := hsw ▸ skipWs_suffix cs
        by_cases hc1 : c = lbrace
        · rw [if_pos hc1] at h
          rcases hm : jparse fuel JMode.members rest0 with _ | ⟨v1, r⟩ <;> rw [hm] at h
          · simp at h
          · rcases v1 with _ | b | n | q | st | xs | kvs
            · simp at h
            · simp at h
            · simp at h
            · simp at h
            · simp at h
            · simp at h
            · simp only [Option.some.injEq, Prod.mk.injEq] at h
              rw [← h.2]
              exact (ih _ _ _ _ hm).trans ((suffix_cons_self c rest0).trans hsfx0)
        · rw [if_neg hc1] at h
          by_cases hc2 : c = '['
          · rw [if_pos hc2] at h
            exact ((ih _ _ _ _ h).trans (suffix_cons_self c rest0)).trans hsfx0
          · rw [if_neg hc2] at h
            by_cases hc3 : c = '"'
            · rw [if_pos hc3] at h
              rcases hps : parseJStringAux [] rest0 with _ | ⟨sl, r⟩ <;> rw [hps] at h
              · simp at h
              · simp only [Option.map_some'] at h
                simp only [Option.some.injEq, Prod.mk.injEq] at h
                rw [← h.2]
                exact ((parseJStringAux_suffix _ _ _ _ hps).trans
                  (suffix_cons_self c rest0)).trans hsfx0
            · rw [if_neg hc3] at h
              by_cases ht : listStartsWith (c :: rest0) ['t', 'r', 'u', 'e'] = true
              · rw [if_pos ht] at h
                simp only [Option.some.injEq, Prod.mk.injEq] at h
                rw [← h.2]
                exact (List.drop_suffix _ _).trans hsfx0
              · rw [if_neg ht] at h
                by_cases hf : listStartsWith (c :: rest0) ['f', 'a', 'l', 's', 'e'] = true
                · rw [if_pos hf] at h
                  simp only [Option.some.injEq, Prod.mk.injEq] at h
                  rw [← h.2]
                  exact (List.drop_suffix _ _).trans hsfx0
                · rw [if_neg hf] at h
                  by_cases hn : listStartsWith (c :: rest0) ['n', 'u', 'l', 'l'] = true
                  · rw [if_pos hn] at h
                    simp only [Option.some.injEq, Prod.mk.injEq] at h
                    rw [← h.2]
                    exact (List.drop_suffix _ _).trans hsfx0
                  · rw [if_neg hn] at h
                    exact (parseJNumber_suffix _ _ _ h).trans hsfx0
    | items =>
      rw [jparse.eq_def] at h
      simp only [] at h
      rcases hsw : skipWs cs with _ | ⟨c, rest0⟩ <;> rw [hsw] at h
      · simp at h
      · simp only [] at h
        have hsfx0 : (c :: rest0) <:+ cs := hsw ▸ skipWs_suffix cs
        by_cases hc : c = ']'
        · rw [if_pos hc] at h
          simp only [Option.some.injEq, Prod.mk.injEq] at h
          rw [← h.2]
          exact (suffix_cons_self c rest0).trans hsfx0
        · rw [if_neg hc] at h
          exact ih _ _ _ _ h
    | itemsMust =>
      rw [jparse.eq_def] at h
      simp only [] at h
      rcases hv : jparse fuel JMode.value cs with _ | ⟨v1, r1⟩ <;> rw [hv] at h
      · simp at h
      · simp only [] at h
        have h1 : r1 <:+ cs := ih _ _ _ _ hv
        split at h
        next x r2 heq =>
          have h2 : r2 <:+ cs :=
            ((suffix_cons_self ',' r2).trans (heq ▸ skipWs_suffix r1)).trans h1
          rcases hm : jparse fuel JMode.itemsMust r2 with _ | ⟨v2, r3⟩ <;> rw [hm] at h
          · simp at h
          · rcases v2 with _ | b | n | q | st | xs | kvs
            · simp at h
            · simp at h
            · simp at h
            · simp at h
            · simp at h
            · simp only [Option.some.injEq, Prod.mk.injEq] at h
              rw [← h.2]
              exact (ih _ _ _ _ hm).trans h2
            · simp at h
        next x c2 r2 hne heq =>
          by_cases hc : c2 = ']'
          · rw [if_pos hc] at h
            simp only [Option.some.injEq, Prod.mk.injEq] at h
            rw [← h.2]
            exact ((suffix_cons_self c2 r2).trans (heq ▸ skipWs_suffix r1)).trans h1
          · rw [if_neg hc] at h
            simp at h
        next x heq =>
          simp at h
    | members =>
      rw [jparse.eq_def] at h
      simp only [] at h
      rcases hsw : skipWs cs with _ | ⟨c, rest0⟩ <;> rw [hsw] at h
      · simp at h
      · simp only [] at h
        have hsfx0 : (c :: rest0) <:+ cs := hsw ▸ skipWs_suffix cs
        by_cases hc : c = rbrace
        · rw [if_pos hc] at h
          simp only [Option.some.injEq, Prod.mk.injEq] at h
          rw [← h.2]
          exact (suffix_cons_self c rest0).trans hsfx0
        · rw [if_neg hc] at h
          exact ih _ _ _ _ h
    | membersMust =>
      rw [jparse.eq_def] at h
      simp only [] at h
      rcases hsw : skipWs cs with _ | ⟨c, rest0⟩ <;> rw [hsw] at h
      · simp at h
      · simp only [] at h
        have hsfx0 : (c :: rest0) <:+ cs := hsw ▸ skipWs_suffix cs
        by_cases hq : c = '"'
        · rw [if_pos hq] at h
          rcases hps : parseJStringAux [] rest0 with _ | ⟨k, r1⟩ <;> rw [hps] at h
          · simp at h
          · simp only [] at h
            have hr1 : r1 <:+ cs := (parseJStringAux_suffix _ _ _ _ hps).trans
              ((suffix_cons_self c rest0).trans hsfx0)
            split at h
            next x r2 heq =>
              have hr2 : r2 <:+ cs :=
                ((suffix_cons_self ':' r2).trans (heq ▸ skipWs_suffix r1)).trans hr1
              rcases hv1 : jparse fuel JMode.value r2 with _ | ⟨v1, r3⟩ <;> rw [hv1] at h
              · simp at h
              · simp only [] at h
                have hr3 : r3 <:+ cs := (ih _ _ _ _ hv1).trans hr2
                split at h
                next y r4 heq2 =>
                  have hr4 : r4 <:+ cs :=
                    ((suffix_cons_self ',' r4).trans (heq2 ▸ skipWs_suffix r3)).trans hr3
                  rcases hm2 : jparse fuel JMode.membersMust r4 with _ | ⟨v2, r5⟩ <;>
                    rw [hm2] at h
                  · simp at h
                  · rcases v2 with _ | b | n | q2 | st | xs | kvs
                    · simp at h
                    · simp at h
                    · simp at h
                    · simp at h
                    · simp at h
                    · simp at h
                    · simp only [Option.some.injEq, Prod.mk.injEq] at h
                      rw [← h.2]
                      exact (ih _ _ _ _ hm2).trans hr4
                next y c2 r4 hne heq2 =>
                  by_cases hrb : c2 = rbrace
                  · rw [if_pos hrb] at h
                    simp only [Option.some.injEq, Prod.mk.injEq] at h
                    rw [← h.2]
                    exact ((suffix_cons_self c2 r4).trans (heq2 ▸ skipWs_suffix r3)).trans hr3
                  · rw [if_neg hrb] at h
                    simp at h
                next y heq2 =>
                  simp at h
            next x hne =>
              simp at h
        · rw [if_neg hq] at h
          simp at h

theorem jparse_itemsMust_not_dict (f : Nat) (cs : List Char) (v : PyVal) (rest : List Char)
    (h : jparse f JMode.itemsMust cs = some (v, rest)) : isDictV v = false := by
  cases f with
  | zero => simp [jparse] at h
  | succ fuel =>
    rw [jparse.eq_def] at h
    simp only [] at h
    rcases hv : jparse fuel JMode.value cs with _ | ⟨v1, r1⟩ <;> rw [hv] at h
    · simp at h
    · simp only [] at h
      split at h
      next x r2 heq =>
        rcases hm : jparse fuel JMode.itemsMust r2 with _ | ⟨v2, r3⟩ <;> rw [hm] at h
        · simp at h
        · rcases v2 with _ | b | n | q | st | xs | kvs
          · simp at h
          · simp at h
          · simp at h
          · simp at h
          · simp at h
          · simp only [Option.some.injEq, Prod.mk.injEq] at h
            rw [← h.1]
            rfl
          · simp at h
      next x c2 r2 hne heq =>
        by_cases hc : c2 = ']'
        · rw [if_pos hc] at h
          simp only [Option.some.injEq, Prod.mk.injEq] at h
          rw [← h.1]
          rfl
        · rw [if_neg hc] at h
          simp at h
      next x heq =>
        simp at h

theorem jparse_items_not_dict (f : Nat) (cs : List Char) (v : PyVal) (rest : List Char)
    (h : jparse f JMode.items cs = some (v, rest)) : isDictV v = false := by
  cases f with
  | zero => simp [jparse] at h
  | succ fuel =>
    rw [jparse.eq_def] at h
    simp only [] at h
    rcases hsw : skipWs cs with _ | ⟨c, rest0⟩ <;> rw [hsw] at h
    · simp at h
    · simp only [] at h
      by_cases hc : c = ']'
      · rw [if_pos hc] at h
        simp only [Option.some.injEq, Prod.mk.injEq] at h
        rw [← h.1]
        rfl
      · rw [if_neg hc] at h
        exact jparse_itemsMust_not_dict _ _ _ _ h

theorem jparse_membersMust_back :
    ∀ (f : Nat) (cs : List Char) (v : PyVal) (rest : List Char),
      jparse f JMode.membersMust cs = some (v, rest) →
      ∃ pre, cs = pre ++ rbrace :: rest := by
  intro f
  induction f with
  | zero =>
    intro cs v rest h
    simp [jparse] at h
  | succ fuel ih =>
    intro cs v rest h
    rw [jparse.eq_def] at h
    simp only [] at h
    rcases hsw : skipWs cs with _ | ⟨c, rest0⟩ <;> rw [hsw] at h
    · simp at h
    · simp only [] at h
      have hsfx0 : (c :: rest0) <:+ cs := hsw ▸ skipWs_suffix cs
      by_cases hq : c = '"'
      · rw [if_pos hq] at h
        rcases hps : parseJStringAux [] rest0 with _ | ⟨k, r1⟩ <;> rw [hps] at h
        · simp at h
        · simp only [] at h
          have hr1 : r1 <:+ cs := (parseJStringAux_suffix _ _ _ _ hps).trans
            ((suffix_cons_self c rest0).trans hsfx0)
          split at h
          next x r2 heq =>
            have hr2 : r2 <:+ cs :=
              ((suffix_cons_self ':' r2).trans (heq ▸ skipWs_suffix r1)).trans hr1
            rcases hv1 : jparse fuel JMode.value r2 with _ | ⟨v1, r3⟩ <;> rw [hv1] at h
            · simp at h
            · simp only [] at h
              have hr3 : r3 <:+ cs := (jparse_suffix _ _ _ _ _ hv1).trans hr2
              split at h
              next y r4 heq2 =>
                have hr4 : (',' :: r4) <:+ cs := (heq2 ▸ skipWs_suffix r3).trans hr3
                rcases hm2 : jparse fuel JMode.membersMust r4 with _ | ⟨v2, r5⟩ <;>
                  rw [hm2] at h
                · simp at h
                · rcases v2 with _ | b | n | q2 | st | xs | kvs
                  · simp at h
                  · simp at h
                  · simp at h
                  · simp at h
                  · simp at h
                  · simp at h
                  · simp only [Option.some.injEq, Prod.mk.injEq] at h
                    obtain ⟨pre2, hpre2⟩ := ih _ _ _ hm2
                    obtain ⟨q3, hq3⟩ := hr4
                    refine ⟨q3 ++ ',' :: pre2, ?_⟩
                    rw [← h.2, ← hq3, hpre2]
                    simp
              next y c2 r4 hne heq2 =>
                by_cases hrb : c2 = rbrace
                · rw [if_pos hrb] at h
                  simp only [Option.some.injEq, Prod.mk.injEq] at h
                  have hrb4 : (rbrace :: r4) <:+ cs := by
                    rw [← hrb]
                    exact (heq2 ▸ skipWs_suffix r3).trans hr3
                  obtain ⟨q3, hq3⟩ := hrb4
                  refine ⟨q3, ?_⟩
                  rw [← h.2, ← hq3]
                · rw [if_neg hrb] at h
                  simp at h
              next y heq2 =>
                simp at h
          next x hne =>
            simp at h
      · rw [if_neg hq] at h
        simp at h

theorem jparse_members_back (f : Nat) (cs : List Char) (v : PyVal) (rest : List Char)
    (h : jparse f JMode.members cs = some (v, rest)) :
    ∃ pre, cs = pre ++ rbrace :: rest := by
  cases f with
  | zero => simp [jparse] at h
  | succ fuel =>
    rw [jparse.eq_def] at h
    simp only [] at h
    rcases hsw : skipWs cs with _ | ⟨c, rest0⟩ <;> rw [hsw] at h
    · simp at h
    · simp only [] at h
      have hsfx0 : (c :: rest0) <:+ cs := hsw ▸ skipWs_suffix cs
      by_cases hc : c = rbrace
      · rw [if_pos hc] at h
        simp only [Option.some.injEq, Prod.mk.injEq] at h
        obtain ⟨q3, hq3⟩ := hsfx0
        refine ⟨q3, ?_⟩
        rw [← h.2, ← hq3, hc]
      · rw [if_neg hc] at h
        exact jparse_membersMust_back _ _ _ _ h

theorem jparse_value_dict_shape (f : Nat) (cs : List Char) (kvs : PyDict) (rest : List Char)
    (h : jparse f JMode.value cs = some (PyVal.dict kvs, rest)) :
    ∃ mid pre, skipWs cs = lbrace :: mid ∧ mid = pre ++ rbrace :: rest := by
  cases f with
  | zero => simp [jparse] at h
  | succ fuel =>
    rw [jparse.eq_def] at h
    simp only [] at h
    rcases hsw : skipWs cs with _ | ⟨c, rest0⟩ <;> rw [hsw] at h
    · simp at h
    · simp only [] at h
      by_cases hc1 : c = lbrace
      · rw [if_pos hc1] at h
        rcases hm : jparse fuel JMode.members rest0 with _ | ⟨v1, r⟩ <;> rw [hm] at h
        · simp at h
        · rcases v1 with _ | b | n | q | st | xs | kvs0
          · simp at h
          · simp at h
          · simp at h
          · simp at h
          · simp at h
          · simp at h
          · simp only [Option.some.injEq, Prod.mk.injEq] at h
            obtain ⟨pre, hpre⟩ := jparse_members_back _ _ _ _ hm
            refine ⟨rest0, pre, ?_, ?_⟩
            · rw [hc1]
            · rw [hpre, h.2]
      · rw [if_neg hc1] at h
        by_cases hc2 : c = '['
        · rw [if_pos hc2] at h
          have := jparse_items_not_dict _ _ _ _ h
          simp [isDictV] at this
        · rw [if_neg hc2] at h
          by_cases hc3 : c = '"'
          · rw [if_pos hc3] at h
            rcases hps : parseJStringAux [] rest0 with _ | ⟨sl, r⟩ <;> rw [hps] at h
            · simp at h
            · simp only [Option.map_some'] at h
              simp at h
          · rw [if_neg hc3] at h
            by_cases ht : listStartsWith (c :: rest0) ['t', 'r', 'u', 'e'] = true
            · rw [if_pos ht] at h
              simp at h
            · rw [if_neg ht] at h
              by_cases hf : listStartsWith (c :: rest0) ['f', 'a', 'l', 's', 'e'] = true
              · rw [if_pos hf] at h
                simp at h
              · rw [if_neg hf] at h
                by_cases hn : listStartsWith (c :: rest0) ['n', 'u', 'l', 'l'] = true
                · rw [if_pos hn] at h
                  simp at h
                · rw [if_neg hn] at h
                  have := parseJNumber_shape _ _ _ h
                  simp [isDictV] at this

theorem mk_data (s : String) : String.mk s.data = s := by
  cases s
  rfl

theorem pyStrip_head (s : String) (c : Char) (t : List Char)
    (h : (pyStrip s).data = c :: t) : charIsSpace c = false := by
  have h' : ((s.data.dropWhile charIsSpace).reverse.dropWhile charIsSpace).reverse = c :: t := h
  have hm : (s.data.dropWhile charIsSpace).reverse.dropWhile charIsSpace
      = t.reverse ++ [c] := by
    rw [← List.reverse_reverse
      ((s.data.dropWhile charIsSpace).reverse.dropWhile charIsSpace), h']
    simp
  obtain ⟨q, hq⟩ : ∃ q, q ++ ((s.data.dropWhile charIsSpace).reverse.dropWhile charIsSpace)
      = (s.data.dropWhile charIsSpace).reverse :=
    ⟨_, List.takeWhile_append_dropWhile _ _⟩
  rw [hm] at hq
  have hl1 : s.data.dropWhile charIsSpace = c :: (q ++ t.reverse).reverse := by
    rw [← List.reverse_reverse (s.data.dropWhile charIsSpace), ← hq]
    simp
  exact dropWhile_head_false hl1

theorem pyStrip_last (s : String) (p2 : List Char) (c : Char)
    (h : (pyStrip s).data = p2 ++ [c]) : charIsSpace c = false := by
  have h' : ((s.data.dropWhile charIsSpace).reverse.dropWhile charIsSpace).reverse
      = p2 ++ [c] := h
  have hm : (s.data.dropWhile charIsSpace).reverse.dropWhile charIsSpace
      = c :: p2.reverse := by
    have h2 := congrArg List.reverse h'
    rw [List.reverse_reverse] at h2
    rw [h2]
    simp
  exact dropWhile_head_false hm

theorem pyStrip_eq_self (s : String) (mid : List Char)
    (hd : s.data = lbrace :: mid ++ [rbrace]) : pyStrip s = s := by
  unfold pyStrip
  rw [hd, List.cons_append]
  have hlb : ¬charIsSpace lbrace = true := by decide
  have hrb : ¬charIsSpace rbrace = true := by decide
  rw [List.dropWhile_cons_of_neg hlb]
  have hrev : (lbrace :: (mid ++ [rbrace])).reverse = rbrace :: (lbrace :: mid).reverse := by
    simp
  rw [hrev]
  rw [List.dropWhile_cons_of_neg hrb]
  rw [← hrev, List.reverse_reverse, ← List.cons_append, ← hd]

theorem takeWhile_btick_front (mid : List Char) :
    ((lbrace :: mid ++ [rbrace]).takeWhile (· = btick)) = [] :=
  List.takeWhile_cons_of_neg (by decide)

theorem takeWhile_btick_back (mid : List Char) :
    ((lbrace :: mid ++ [rbrace]).reverse.takeWhile (· = btick)) = [] := by
  have hrev : (lbrace :: mid ++ [rbrace]).reverse = rbrace :: (lbrace :: mid).reverse := by
    simp
  rw [hrev]
  exact List.takeWhile_cons_of_neg (by decide)

theorem stripTickRuns_noop (minLen : Nat) (s : String) (mid : List Char)
    (hd : s.data = lbrace :: mid ++ [rbrace]) : stripTickRuns minLen s = s := by
  unfold stripTickRuns
  simp only [hd, takeWhile_btick_front, List.length_nil]
  have hif : (if minLen ≤ 0 then (lbrace :: mid ++ [rbrace]).drop 0
      else lbrace :: mid ++ [rbrace]) = lbrace :: mid ++ [rbrace] := by
    by_cases hm : minLen ≤ 0
    · rw [if_pos hm, List.drop_zero]
    · rw [if_neg hm]
  rw [hif]
  simp only [takeWhile_btick_back, List.length_nil]
  have hif2 : (if minLen ≤ 0 then ((lbrace :: mid ++ [rbrace]).reverse.drop 0).reverse
      else lbrace :: mid ++ [rbrace]) = lbrace :: mid ++ [rbrace] := by
    by_cases hm : minLen ≤ 0
    · rw [if_pos hm, List.drop_zero, List.reverse_reverse]
    · rw [if_neg hm]
  rw [hif2, ← hd]

theorem strStartsWith_q_false (s : String) (mid : List Char)
    (hd : s.data = lbrace :: mid ++ [rbrace]) : strStartsWith s "?" = false := by
  have h0 : strStartsWith s "?" = listStartsWith s.data ['?'] := rfl
  rw [h0, hd]
  simp [listStartsWith]
  decide

theorem parse_kwargs_json_agree (s : String) (kvs : PyDict)
    (h : jsonLoads s = some (PyVal.dict kvs)) : parseKwargsString s = kvs := by
  unfold jsonLoads at h
  simp only [] at h
  rcases hp : jparse (3 * (pyStrip s).data.length + 3) JMode.value (pyStrip s).data
    with _ | ⟨v, rest⟩ <;> rw [hp] at h
  · simp at h
  · simp only [] at h
    by_cases hws : (skipWs rest).isEmpty = true
    · rw [if_pos hws] at h
      simp only [Option.some.injEq] at h
      subst h
      obtain ⟨mid, pre, hfront, hmid⟩ := jparse_value_dict_shape _ _ _ _ hp
      have hskipid : skipWs (pyStrip s).data = (pyStrip s).data := by
        apply dropWhile_eq_self_of_head
        intro c tl hct
        cases hjw : jsonWs c with
        | false => rfl
        | true =>
          have hsp := jsonWs_isSpace hjw
          rw [pyStrip_head s c tl hct] at hsp
          exact absurd hsp (by simp)
      rw [hskipid] at hfront
      have hallws : ∀ x ∈ rest, jsonWs x = true := by
        intro x hx
        have hnil : rest.dropWhile jsonWs = [] := by
          have := hws
          unfold skipWs at this
          rwa [List.isEmpty_iff] at this
        exact List.dropWhile_eq_nil_iff.mp hnil x hx
      have hrestnil : rest = [] := by
        rcases hrev : rest.reverse with _ | ⟨c0, rs⟩
        · rw [← List.reverse_reverse rest, hrev]
          rfl
        · exfalso
          have hrest : rest = rs.reverse ++ [c0] := by
            rw [← List.reverse_reverse rest, hrev]
            simp
          have hc0mem : c0 ∈ rest := by
            rw [hrest]
            simp
          have hc0sp := jsonWs_isSpace (hallws c0 hc0mem)
          have hback : (pyStrip s).data = (lbrace :: (pre ++ rbrace :: rs.reverse)) ++ [c0] := by
            rw [hfront, hmid, hrest]
            simp
          rw [pyStrip_last s _ c0 hback] at hc0sp
          exact absurd hc0sp (by simp)
      subst hrestnil
      have hfinal : (pyStrip s).data = lbrace :: pre ++ [rbrace] := by
        rw [hfront, hmid]
        simp
      have e2 : stripTickRuns 1 (pyStrip s) = pyStrip s := stripTickRuns_noop 1 _ pre hfinal
      have e3 : stripTickRuns 3 (pyStrip s) = pyStrip s := stripTickRuns_noop 3 _ pre hfinal
      have e4 : strStartsWith (pyStrip s) "?" = false := strStartsWith_q_false _ pre hfinal
      have e5 : pyStrip (pyStrip s) = pyStrip s := pyStrip_eq_self _ pre hfinal
      have hloads : jsonLoads (pyStrip s) = some (PyVal.dict kvs) := by
        unfold jsonLoads
        simp only [e5]
        rw [hp]
        simp only []
        rw [if_pos hws]
      unfold parseKwargsString
      simp only [e2, e3, e4, Bool.false_eq_true, if_false]
      rw [hloads]
    · rw [if_neg hws] at h
      exact absurd h (by simp)

/-- C10: `MCPServer.parse_kwargs_string` is total (it returns a dict for
every input, `\x7b\x7d` i.e. `[]` when everything fails) and agrees with
`json.loads` whenever the input is a valid JSON object: the preprocessing
(whitespace strip, backtick-run strip, leading `?` strip) is a no-op on
such inputs, so the first chain step already returns exactly the decoded
dict. -/
theorem parse_kwargs_total_and_json :
    (∀ (s : String) (kvs : PyDict),
        jsonLoads s = some (PyVal.dict kvs) → parseKwargsString s = kvs)
    ∧ parseKwargsString "???" = [] :=
  ⟨parse_kwargs_json_agree, rfl⟩

theorem parse_kwargs_total_and_json_witness :
    jsonLoads "\x7b\"lat\": 63, \"lon\": 7\x7d"
        = some (PyVal.dict [("lat", PyVal.int 63), ("lon", PyVal.int 7)])
    ∧ parseKwargsString "\x7b\"lat\": 63, \"lon\": 7\x7d"
        = [("lat", PyVal.int 63), ("lon", PyVal.int 7)] :=
  ⟨rfl, parse_kwargs_total_and_json.1 _ _ rfl⟩
